import Mathlib

/-!
Verification development for the statistics core of the
`student_depression_analysis` repository.  The functions below are shallow
embeddings of `src/js/libs/simple-statistics.js`; JavaScript numbers are
modelled by exact rationals (`ℚ`), thrown exceptions by `Except String`,
`null`/`undefined` results by `Option`, and `NaN` by an explicit sentinel
(`JsNumber.nan`).  Array mutation is modelled by explicit state passing on
`List` values.  Line references in the doc comments point into
`simple-statistics.js`.
-/

namespace SS

/-- A JavaScript number that is either an actual (rational) value or the
`NaN` sentinel. -/
inductive JsNumber where
  | num : ℚ → JsNumber
  | nan : JsNumber
deriving DecidableEq, Repr

deriving instance DecidableEq for Except

/-- `sum` (lines 117-154): Kahan-style corrected summation.  The running
sum and the floating-point correction term are threaded exactly as in the
source; over exact rationals the correction terms are identically zero,
which `sum_eq_listSum` below makes precise.  The `typeof` checks for
non-numeric elements cannot fire in a `List ℚ` model and are omitted. -/
def sumLoop : List ℚ → ℚ → ℚ → ℚ
  | [], s, c => s + c
  | v :: t, s, c =>
      let transition := s + v
      let c' := if |s| ≥ |v| then c + (s - transition + v) else c + (v - transition + s)
      sumLoop t transition c'

/-- `sum` entry point: empty input returns 0, otherwise the corrected loop
starts from the first element. -/
def sum : List ℚ → ℚ
  | [] => 0
  | v :: t => sumLoop t v 0

/-- `mean` (lines 170-176): throws on an empty sample, otherwise `sum x / n`. -/
def mean (x : List ℚ) : Except String ℚ :=
  if x.length = 0 then .error "mean requires at least one data point"
  else .ok (sum x / x.length)

/-- `sumNthPowerDeviations` (lines 193-214) specialised to `n = 2`, the only
power the claims use: the optimized `tempValue * tempValue` accumulation
loop. -/
def sumSquaredDeviations (x : List ℚ) : Except String ℚ :=
  (mean x).map (fun m => x.foldl (fun s v => s + (v - m) * (v - m)) 0)

/-- `sampleVariance` (lines 1829-1844): Bessel-corrected sample variance,
throws for fewer than two data points. -/
def sampleVariance (x : List ℚ) : Except String ℚ :=
  if x.length < 2 then .error "sampleVariance requires at least two data points"
  else (sumSquaredDeviations x).map (fun s => s / ((x.length : ℚ) - 1))

/-- The symbolic value of the two-sample t statistic.  The source returns
`num / Math.sqrt(rad)`; to stay in exact arithmetic the numerator and the
radicand are kept separate (equal symbolic forms evaluate to equal floats). -/
structure TStat where
  num : ℚ
  rad : ℚ
deriving DecidableEq, Repr

/-- `tTestTwoSample` (lines 2481-2516): returns `null` (modelled `none`)
when either sample is empty; `if (!difference) difference = 0` treats an
omitted or zero (or `NaN`, not representable here) difference as 0.  The
final `typeof` guards always pass for rational inputs. -/
def tTestTwoSample (sampleX sampleY : List ℚ) (difference : Option ℚ) :
    Except String (Option TStat) := do
  let n := sampleX.length
  let m := sampleY.length
  if n = 0 ∨ m = 0 then
    return none
  let diff : ℚ := match difference with
    | none => 0
    | some d => if d = 0 then 0 else d
  let meanX ← mean sampleX
  let meanY ← mean sampleY
  let varX ← sampleVariance sampleX
  let varY ← sampleVariance sampleY
  let weightedVariance :=
    (((n : ℚ) - 1) * varX + ((m : ℚ) - 1) * varY) / ((n : ℚ) + (m : ℚ) - 2)
  return some ⟨meanX - meanY - diff, weightedVariance * (1 / (n : ℚ) + 1 / (m : ℚ))⟩

/-- `factorial` (lines 2839-2860): throws for negative or non-integer
input; otherwise the iterative product of `2, 3, ..., n`. -/
def factorial (n : ℚ) : Except String ℚ :=
  if n < 0 then .error "factorial requires a non-negative value"
  else if n.den ≠ 1 then .error "factorial requires an integer input"
  else .ok ((List.range' 2 (n.num.toNat - 1)).foldl (fun (acc : ℚ) (i : ℕ) => acc * (i : ℚ)) 1)

/-- `gamma` (lines 2878-2914), restricted to integer arguments: the
`Number.isInteger` fast path returns `NaN` for zero and negative integers
and `factorial(n - 1)` for positive ones.  The non-integer branch (Nemes'
approximation over `Math.exp`/`Math.sqrt`/`Math.pow`) computes irrational
values and is outside the integer-input claims modelled here. -/
def gammaInteger (n : ℤ) : Except String JsNumber :=
  if n ≤ 0 then .ok .nan
  else (factorial ((n : ℚ) - 1)).map .num

/-- JavaScript array read `arr[i]`: `undefined` (here `none`) outside the
bounds, including negative indices. -/
def jsGet (arr : List ℚ) (i : ℤ) : Option ℚ :=
  if 0 ≤ i then arr.get? i.toNat else none

/-- JavaScript in-range array write; the out-of-range writes the selection
algorithm never performs are modelled as no-ops. -/
def jsSet (arr : List ℚ) (i : ℤ) (v : ℚ) : List ℚ :=
  if 0 ≤ i then arr.set i.toNat v else arr

/-- `swap` (lines 751-755). -/
def jsSwap (arr : List ℚ) (i j : ℤ) : List ℚ :=
  let tmp := (jsGet arr i).getD 0
  jsSet (jsSet arr i ((jsGet arr j).getD 0)) j tmp

/-- Inner scan `while (arr[i] < t) i++` of `quickselect`; an out-of-bounds
read compares `undefined < t`, which is false, stopping the scan, so the
internal fuel `arr.length + 1` never runs out. -/
def advanceLt (arr : List ℚ) (t : ℚ) : ℕ → ℤ → ℤ
  | 0, i => i
  | f + 1, i =>
      match jsGet arr i with
      | some v => if v < t then advanceLt arr t f (i + 1) else i
      | none => i

/-- Inner scan `while (arr[j] > t) j--` of `quickselect`. -/
def advanceGt (arr : List ℚ) (t : ℚ) : ℕ → ℤ → ℤ
  | 0, j => j
  | f + 1, j =>
      match jsGet arr j with
      | some v => if v > t then advanceGt arr t f (j - 1) else j
      | none => j

/-- The partition loop `while (i < j) ...` of `quickselect` (lines 735-741):
swap, step both cursors, then run both inner scans. -/
def partitionLoop (t : ℚ) : ℕ → List ℚ → ℤ → ℤ → List ℚ × ℤ × ℤ
  | 0, arr, i, j => (arr, i, j)
  | f + 1, arr, i, j =>
      if i < j then
        let arr := jsSwap arr i j
        let i := i + 1
        let j := j - 1
        let i := advanceLt arr t (arr.length + 1) i
        let j := advanceGt arr t (arr.length + 1) j
        partitionLoop t f arr i j
      else (arr, i, j)

/-- `quickselect`'s outer `while (right > left)` loop (lines 704-749),
which rearranges the array in place so that the `k`-th order statistic
lands at index `k`.  The Floyd-Rivest narrowing step (`right - left > 600`)
only shrinks the search window with floating-point size estimates before
running the very same partition; the inputs in this development stay far
below 600 elements, where the source never takes that branch, and it is
omitted. -/
def quickselectLoop : ℕ → List ℚ → ℤ → ℤ → ℤ → List ℚ
  | 0, arr, _, _, _ => arr
  | f + 1, arr, k, left, right =>
      if right > left then
        let t := (jsGet arr k).getD 0
        let i := left
        let j := right
        let arr := jsSwap arr left k
        let arr :=
          if (jsGet arr right).elim false (fun v => v > t) then jsSwap arr left right
          else arr
        let st := partitionLoop t (arr.length + 2) arr i j
        let arr := st.1
        let j := st.2.2
        let st2 :=
          if jsGet arr left = some t then (jsSwap arr left j, j)
          else (jsSwap arr (j + 1) right, j + 1)
        let arr := st2.1
        let j := st2.2
        let left := if j ≤ k then j + 1 else left
        let right := if k ≤ j then j - 1 else right
        quickselectLoop f arr k left right
      else arr

/-- `quickselect` entry: the loop terminates well within `length + 2`
iterations on the inputs evaluated here; exhausted fuel returns the array
as it stands. -/
def quickselect (arr : List ℚ) (k left right : ℤ) : List ℚ :=
  quickselectLoop (arr.length + 2) arr k left right

/-- `quantileSorted` (lines 662-686): the exact branch ladder of the
source, with `idx % 1 !== 0` rendered as `idx.den ≠ 1` and `Math.ceil` as
`Int.ceil` on exact rationals. -/
def quantileSorted (x : List ℚ) (p : ℚ) : Except String ℚ :=
  let idx : ℚ := (x.length : ℚ) * p
  if x.length = 0 then .error "quantile requires at least one data point."
  else if p < 0 ∨ p > 1 then .error "quantiles must be between 0 and 1"
  else if p = 1 then .ok (x.getD (x.length - 1) 0)
  else if p = 0 then .ok (x.getD 0 0)
  else if idx.den ≠ 1 then .ok (x.getD (⌈idx⌉.toNat - 1) 0)
  else if x.length % 2 = 0 then .ok ((x.getD (idx.num.toNat - 1) 0 + x.getD idx.num.toNat 0) / 2)
  else .ok (x.getD idx.num.toNat 0)

/-- `quantileIndex` (lines 840-859): the index (possibly the half-integer
`idx - 0.5` marking an even-length average) at which the requested
quantile lives. -/
def quantileIndex (len : ℕ) (p : ℚ) : ℚ :=
  let idx : ℚ := (len : ℚ) * p
  if p = 1 then (len : ℚ) - 1
  else if p = 0 then 0
  else if idx.den ≠ 1 then (⌈idx⌉ : ℚ) - 1
  else if len % 2 = 0 then idx - 1 / 2
  else idx

/-- `quantileSelect` (lines 799-807): an integer index needs one
quickselect; a half-integer index needs the floor element and its
successor in place. -/
def quantileSelect (arr : List ℚ) (k : ℚ) (left right : ℤ) : List ℚ :=
  if k.den = 1 then quickselect arr k.num left right
  else
    let kf := ⌊k⌋
    let arr := quickselect arr kf left right
    quickselect arr (kf + 1) (kf + 1) right

/-- One iteration of `multiQuantileSelect`'s stack machine (lines 818-833):
pop the interval ends, recurse on the middle. -/
def multiQuantileLoop (indices : List ℚ) : ℕ → List ℚ → List ℤ → List ℚ
  | 0, arr, _ => arr
  | f + 1, arr, stack =>
      match stack.getLast? with
      | none => arr
      | some r =>
          let stack := stack.dropLast
          let l := (stack.getLastD 0)
          let stack := stack.dropLast
          if r - l ≤ 1 then multiQuantileLoop indices f arr stack
          else
            let m := (l + r) / 2
            let arr := quantileSelect arr (indices.getD m.toNat 0)
              ⌊indices.getD l.toNat 0⌋ ⌈indices.getD r.toNat 0⌉
            multiQuantileLoop indices f arr (stack ++ [l, m, m, r])
  termination_by f _ _ => f

/-- `multiQuantileSelect` (lines 809-834): batched selection for an array
of requested quantiles. -/
def multiQuantileSelect (arr : List ℚ) (p : List ℚ) : List ℚ :=
  let indices := List.insertionSort (· ≤ ·)
    (0 :: (p.map (quantileIndex arr.length) ++ [(arr.length : ℚ) - 1]))
  multiQuantileLoop indices ((indices.length + 2) * (indices.length + 2) * 16) arr
    [0, (indices.length : ℤ) - 1]

/-- The result of `quantile`: a single value or one value per requested
fraction, depending on the shape of `p`. -/
inductive QuantileResult where
  | one : ℚ → QuantileResult
  | many : List ℚ → QuantileResult
deriving DecidableEq, Repr

/-- `quantile` (lines 778-797).  The function's first act is
`var copy = x.slice()`; every later mutation (quickselect / batched
multi-select) hits that copy, so the pair returned here carries the
result together with the caller's array exactly as the call leaves it. -/
def quantile (x : List ℚ) (p : ℚ ⊕ List ℚ) :
    Except String QuantileResult × List ℚ :=
  let copy := x
  match p with
  | .inr ps =>
      let copy := multiQuantileSelect copy ps
      ((ps.mapM (fun pi => quantileSorted copy pi)).map .many, x)
  | .inl pv =>
      let idx := quantileIndex copy.length pv
      let copy := quantileSelect copy idx 0 ((copy.length : ℤ) - 1)
      ((quantileSorted copy pv).map .one, x)

/-- `median` (lines 1011-1013): `+quantile(x, 0.5)` (the unary plus is the
identity on numbers). -/
def median (x : List ℚ) : Except String ℚ :=
  match (quantile x (.inl (1 / 2))).1 with
  | .ok (.one v) => .ok v
  | .ok (.many _) => .error "unreachable: scalar quantile returned a list"
  | .error e => .error e

/-- One pooled observation of `wilcoxonRankSum`: group label (`true` for
`sampleX`) and value. -/
structure Pooled where
  label : Bool
  value : ℚ
deriving DecidableEq, Repr

/-- Stable insertion into a value-sorted list: an element sinks below every
earlier element whose value is `≤` its own, reproducing the stable
`Array.prototype.sort` with comparator `a.value - b.value`. -/
def pooledInsert (a : Pooled) : List Pooled → List Pooled
  | [] => [a]
  | b :: t => if b.value ≤ a.value then b :: pooledInsert a t else a :: b :: t

/-- Stable sort by value (elements inserted left to right keep their
relative order within equal values). -/
def pooledSort (l : List Pooled) : List Pooled :=
  l.foldl (fun acc a => pooledInsert a acc) []

/-- `replaceRanksInPlace` (lines 2564-2569): every position listed in
`tiedRanks` receives the average of the first and last listed rank.  The
positions stored in `tiedRanks` are always original indices, so they are
used directly as list indices. -/
def replaceRanks (ranks : List ℚ) (tied : List ℕ) : List ℚ :=
  let avg : ℚ := ((tied.headD 0 : ℚ) + (tied.getLastD 0 : ℚ)) / 2
  tied.foldl (fun r idx => r.set idx avg) ranks

/-- One iteration (index `i`) of the tie-scanning loop of
`wilcoxonRankSum` (lines 2551-2562), acting on the state
`(ranks, tiedRanks)`.  Note the faithful quirk: the `else if` branch that
averages a finished tie group does NOT reset `tiedRanks`. -/
def tieStep (vals : List ℚ) (n : ℕ) (st : List ℚ × List ℕ) (i : ℕ) :
    List ℚ × List ℕ :=
  let ranks := st.1
  let tied := st.2
  if vals.get? i = vals.get? (i - 1) then
    let tied' := tied ++ [i]
    if i = n - 1 then (replaceRanks ranks tied', tied') else (ranks, tied')
  else if tied.length > 1 then (replaceRanks ranks tied, tied)
  else (ranks, [i])

/-- `wilcoxonRankSum` (lines 2536-2581): pool with labels, stable-sort by
value, assign ranks 0..n-1, average tie groups via `tieStep`, and sum
`rank + 1` over the first sample's positions. -/
def wilcoxonRankSum (sampleX sampleY : List ℚ) : Except String ℚ :=
  if sampleX.length = 0 ∨ sampleY.length = 0 then
    .error "Neither sample can be empty"
  else
    let pooled := pooledSort
      (sampleX.map (fun v => ⟨true, v⟩) ++ sampleY.map (fun v => ⟨false, v⟩))
    let vals := pooled.map Pooled.value
    let n := pooled.length
    let ranks0 : List ℚ := (List.range n).map (fun i => (i : ℚ))
    let st := (List.range' 1 (n - 1)).foldl (tieStep vals n) (ranks0, [0])
    let ranks := st.1
    .ok (((List.range n).filter
        (fun i => (pooled.get? i).map Pooled.label = some true)).foldl
        (fun s i => s + (ranks.getD i 0 + 1)) 0)

/-- `modeSorted`'s scan (lines 347-373) over the stream
`sorted[1], ..., sorted[n-1], sorted[n]`, the final entry being the
deliberate out-of-bounds read (`undefined`, here `none`) that flushes the
last run.  `last` holds `sorted[i]` as the source variable does and
`value` starts as `NaN` (here `none`); a run is promoted only when seen
STRICTLY more often than the best so far. -/
def modeScan : List (Option ℚ) → Option ℚ → Option ℚ → ℕ → ℕ → Option ℚ
  | [], _, value, _, _ => value
  | c :: rest, last, value, maxSeen, seenThis =>
      if c ≠ last then
        let value' := if seenThis > maxSeen then last else value
        let maxSeen' := if seenThis > maxSeen then seenThis else maxSeen
        modeScan rest c value' maxSeen' 1
      else modeScan rest last value maxSeen (seenThis + 1)

/-- `modeSorted` (lines 331-375): throws on the empty list, returns the
singleton immediately, otherwise runs the scan. -/
def modeSorted (sorted : List ℚ) : Except String JsNumber :=
  if sorted.length = 0 then .error "mode requires at least one data point"
  else if sorted.length = 1 then .ok (.num (sorted.getD 0 0))
  else
    match modeScan ((sorted.drop 1).map some ++ [none]) (sorted.get? 0) none 0 1 with
    | some v => .ok (.num v)
    | none => .ok .nan

/-- `numericSort` (lines 394-404): an ascending copy of the input. -/
def numericSort (x : List ℚ) : List ℚ :=
  List.insertionSort (· ≤ ·) x

/-- `mode` (lines 423-428). -/
def mode (x : List ℚ) : Except String JsNumber :=
  modeSorted (numericSort x)

/-- Swap two in-range positions of a list; the selection loops only ever
swap in range. -/
def listSwap {α : Type} (x : List α) (i j : ℕ) : List α :=
  match x.get? i, x.get? j with
  | some a, some b => (x.set i b).set j a
  | _, _ => x

/-- The `while (length > 0)` body of `shuffleInPlace` (lines 1134-1172):
draw, post-decrement the live length, swap the last live slot with the
drawn one.  The entropy source is a stream `rs` indexed by a running draw
counter `t` (the source's `randomSource()` call sequence); draws are
expected in `[0, 1)` as the source documents. -/
def shuffleGo {α : Type} (rs : ℕ → ℚ) : ℕ → List α → ℕ → List α × ℕ
  | 0, x, t => (x, t)
  | L + 1, x, t =>
      let index := (⌊rs t * ((L : ℚ) + 1)⌋).toNat
      shuffleGo rs L (listSwap x L index) (t + 1)

/-- `shuffleInPlace` entry: shuffles the whole list, returning it together
with the advanced draw counter. -/
def shuffleInPlace {α : Type} (x : List α) (rs : ℕ → ℚ) (t : ℕ) : List α × ℕ :=
  shuffleGo rs x.length x t

/-- `sample` (lines 1207-1214): shuffle a copy, take the first `n`. -/
def sample {α : Type} (x : List α) (n : ℕ) (rs : ℕ → ℚ) : List α :=
  ((shuffleInPlace x rs 0).1).take n

/-- The permutation-distribution loop of `permutationTest` (lines
4030-4042): `k` rounds of shuffling `allData` in place, splitting at
`midIndex` and recording the difference of means.  Returns the recorded
statistics in order together with the final array state and draw
counter. -/
def permDistribution (rs : ℕ → ℚ) (midIndex : ℕ) :
    ℕ → List ℚ → ℕ → Except String (List ℚ × List ℚ × ℕ)
  | 0, allData, t => .ok ([], allData, t)
  | k + 1, allData, t => do
      let st := shuffleInPlace allData rs t
      let allData := st.1
      let t := st.2
      let ml ← mean (allData.take midIndex)
      let mr ← mean (allData.drop midIndex)
      let rest ← permDistribution rs midIndex k allData t
      return ((ml - mr) :: rest.1, rest.2)

/-- `permutationTest` (lines 3998-4071).  Faithful details: the accepted
selector strings are exactly `"two_side"` (also the default), `"greater"`
and `"less"`; the p-value counting loops run `i = 0 .. k` INCLUSIVE, and
the one out-of-bounds read compares `undefined`, which never counts. -/
def permutationTest (sampleX sampleY : List ℚ) (alternative : Option String)
    (kOpt : Option ℕ) (rs : ℕ → ℚ) : Except String ℚ :=
  let k := kOpt.getD 10000
  let alt := alternative.getD "two_side"
  if alt ≠ "two_side" ∧ alt ≠ "greater" ∧ alt ≠ "less" then
    .error "`alternative` must be either 'two_side', 'greater', or 'less'."
  else do
  let meanX ← mean sampleX
  let meanY ← mean sampleY
  let testStatistic := meanX - meanY
  let allData := sampleX ++ sampleY
  let midIndex := allData.length / 2
  let dsnSt ← permDistribution rs midIndex k allData 0
  let testStatDsn := dsnSt.1
  let numExtremeTStats :=
    if alt = "two_side" then
      ((List.range (k + 1)).filter (fun i =>
        match testStatDsn.get? i with
        | some v => decide (|v| ≥ |testStatistic|)
        | none => false)).length
    else if alt = "greater" then
      ((List.range (k + 1)).filter (fun i =>
        match testStatDsn.get? i with
        | some v => decide (v ≥ testStatistic)
        | none => false)).length
    else
      ((List.range (k + 1)).filter (fun i =>
        match testStatDsn.get? i with
        | some v => decide (v ≤ testStatistic)
        | none => false)).length
  return (numExtremeTStats : ℚ) / (k : ℚ)

/-- `makeMatrix` (lines 1225-1235) for rational entries. -/
def makeMatrixQ (columns rows : ℕ) : List (List ℚ) :=
  List.replicate columns (List.replicate rows 0)

/-- `makeMatrix` for the backtracking matrix, whose entries are indices. -/
def makeMatrixN (columns rows : ℕ) : List (List ℕ) :=
  List.replicate columns (List.replicate rows 0)

/-- `uniqueCountSorted`'s loop (lines 1251-1261) after the always-counted
first element; `lastSeenValue` is updated only when a new value is
counted. -/
def uniqueCountGo : ℚ → List ℚ → ℕ
  | _, [] => 0
  | last, b :: t => if b ≠ last then 1 + uniqueCountGo b t else uniqueCountGo last t

/-- `uniqueCountSorted` (lines 1251-1261). -/
def uniqueCountSorted : List ℚ → ℕ
  | [] => 0
  | a :: t => 1 + uniqueCountGo a t

/-- Read a rational list at a signed index (out of range ⇒ the source
would produce `undefined`; all in-contract accesses are in range, and 0 is
returned to stay total). -/
def zget (l : List ℚ) (i : ℤ) : ℚ :=
  if 0 ≤ i then l.getD i.toNat 0 else 0

/-- `matrix[c][i]` read. -/
def mget (m : List (List ℚ)) (c : ℕ) (i : ℤ) : ℚ :=
  zget (m.getD c []) i

/-- `matrix[c][i] = v` write (in-range only, as the source's accesses
are). -/
def mset (m : List (List ℚ)) (c : ℕ) (i : ℤ) (v : ℚ) : List (List ℚ) :=
  if 0 ≤ i then m.set c ((m.getD c []).set i.toNat v) else m

/-- `backtrackMatrix[c][i] || 0` read: a missing entry counts as 0. -/
def btget (b : List (List ℕ)) (c : ℕ) (i : ℤ) : ℕ :=
  if 0 ≤ i then (b.getD c []).getD i.toNat 0 else 0

/-- `backtrackMatrix[c][i] = v` write. -/
def btset (b : List (List ℕ)) (c : ℕ) (i : ℤ) (v : ℕ) : List (List ℕ) :=
  if 0 ≤ i then b.set c ((b.getD c []).set i.toNat v) else b

/-- `ssq` (lines 1276-1289): within-cluster sum of squares of
`data[j..i]` from prefix sums, clamped below at 0 exactly as the source
clamps float error. -/
def ssq (j i : ℤ) (sums sumsOfSquares : List ℚ) : ℚ :=
  let sji :=
    if j > 0 then
      let muji := (zget sums i - zget sums (j - 1)) / ((i : ℚ) - (j : ℚ) + 1)
      zget sumsOfSquares i - zget sumsOfSquares (j - 1) -
        ((i : ℚ) - (j : ℚ) + 1) * muji * muji
    else
      zget sumsOfSquares i - zget sums i * zget sums i / ((i : ℚ) + 1)
  if sji < 0 then 0 else sji

/-- The `for (j = jhigh; j >= jlow; --j)` loop of `fillMatrixColumn`
(lines 1337-1362), with its `break` and the in-loop increment of `jlow`.
State: the two matrices plus `jlow`. -/
def fillLoopJ (sums ssqs : List ℚ) (cluster : ℕ) (i : ℤ) :
    ℕ → ℤ → ℤ → List (List ℚ) → List (List ℕ) → List (List ℚ) × List (List ℕ)
  | 0, _, _, m, bt => (m, bt)
  | fuel + 1, j, jlow, m, bt =>
      if j ≥ jlow then
        let sji := ssq j i sums ssqs
        if sji + mget m (cluster - 1) (jlow - 1) ≥ mget m cluster i then (m, bt)
        else
          let sjlowi := ssq jlow i sums ssqs
          let ssqjlow := sjlowi + mget m (cluster - 1) (jlow - 1)
          let m' := if ssqjlow < mget m cluster i then mset m cluster i ssqjlow else m
          let bt' := if ssqjlow < mget m cluster i then btset bt cluster i jlow.toNat else bt
          let jlow' := jlow + 1
          let ssqj := sji + mget m' (cluster - 1) (j - 1)
          let m'' := if ssqj < mget m' cluster i then mset m' cluster i ssqj else m'
          let bt'' := if ssqj < mget m' cluster i then btset bt' cluster i j.toNat else bt'
          fillLoopJ sums ssqs cluster i fuel (j - 1) jlow' m'' bt''
      else (m, bt)

/-- `fillMatrixColumn` (lines 1304-1382): divide-and-conquer filling of
one cluster row; fuel bounds the recursion depth (at most the interval
length, which the top-level call supplies). -/
def fillMatrixColumn (sums ssqs : List ℚ) (cluster : ℕ) :
    ℕ → ℤ → ℤ → List (List ℚ) → List (List ℕ) → List (List ℚ) × List (List ℕ)
  | 0, _, _, m, bt => (m, bt)
  | fuel + 1, iMin, iMax, m, bt =>
      if iMin > iMax then (m, bt)
      else
        let i := (iMin + iMax) / 2
        let m := mset m cluster i (mget m (cluster - 1) (i - 1))
        let bt := btset bt cluster i i.toNat
        let jlow : ℤ := (cluster : ℤ)
        let jlow := if iMin > (cluster : ℤ) then max jlow (btget bt cluster (iMin - 1) : ℤ)
          else jlow
        let jlow := max jlow (btget bt (cluster - 1) i : ℤ)
        let jhigh : ℤ := i - 1
        let jhigh := if iMax < ((m.getD 0 []).length : ℤ) - 1 then
            min jhigh (btget bt cluster (iMax + 1) : ℤ)
          else jhigh
        let st := fillLoopJ sums ssqs cluster i ((jhigh - jlow).toNat + 2) jhigh jlow m bt
        let st := fillMatrixColumn sums ssqs cluster fuel iMin (i - 1) st.1 st.2
        fillMatrixColumn sums ssqs cluster fuel (i + 1) iMax st.1 st.2

/-- Cumulative sums of a list (`sums[i]` of lines 1403-1419). -/
def prefixSums (l : List ℚ) : List ℚ :=
  (l.scanl (· + ·) 0).drop 1

/-- `fillMatrices` (lines 1396-1444): median-shift the data, build the
cumulative sums and sums of squares, initialise row 0 with `ssq(0, i)`
and fill every further cluster row.  (The source interleaves building
`sums` with filling row 0; `ssq(0, i)` reads only prefix entries `≤ i`,
already available, so building the full prefix lists first is
equivalent.) -/
def fillMatrices (data : List ℚ) (m : List (List ℚ)) (bt : List (List ℕ)) :
    List (List ℚ) × List (List ℕ) :=
  let nValues := (m.getD 0 []).length
  let shift := data.getD (nValues / 2) 0
  let shifted := data.map (fun v => v - shift)
  let sums := prefixSums shifted
  let ssqs := prefixSums (shifted.map (fun v => v * v))
  let m := (List.range nValues).foldl (fun acc i => mset acc 0 (i : ℤ) (ssq 0 (i : ℤ) sums ssqs)) m
  let bt := (List.range nValues).foldl (fun acc i => btset acc 0 (i : ℤ) 0) bt
  (List.range' 1 (m.length - 1)).foldl
    (fun st cluster =>
      let iMin : ℤ := if cluster < m.length - 1 then (cluster : ℤ) else (nValues : ℤ) - 1
      fillMatrixColumn sums ssqs cluster (nValues + 2) iMin ((nValues : ℤ) - 1) st.1 st.2)
    (m, bt)

/-- The backtracking loop of `ckmeans` (lines 1516-1536), processing
clusters from the last to the first and slicing the sorted data. -/
def backtrackClusters (sorted : List ℚ) (bt : List (List ℕ)) :
    ℕ → ℕ → List (List ℚ) → List (List ℚ)
  | 0, _, acc => acc
  | cluster + 1, clusterRight, acc =>
      let clusterLeft := (bt.getD cluster []).getD clusterRight 0
      let slice := (sorted.drop clusterLeft).take (clusterRight + 1 - clusterLeft)
      backtrackClusters sorted bt cluster (clusterLeft - 1) (slice :: acc)

/-- `ckmeans` (lines 1488-1540). -/
def ckmeans (x : List ℚ) (nClusters : ℕ) : Except String (List (List ℚ)) :=
  if nClusters > x.length then
    .error "cannot generate more classes than there are data values"
  else
    let sorted := numericSort x
    let uniqueCount := uniqueCountSorted sorted
    if uniqueCount = 1 then .ok [sorted]
    else
      let st := fillMatrices sorted (makeMatrixQ nClusters sorted.length)
        (makeMatrixN nClusters sorted.length)
      .ok (backtrackClusters sorted st.2 nClusters (sorted.length - 1) [])

/-- Within-group sum of squared deviations from the group mean (the
`withinss` objective of the Wang-Song formulation); used to state
optimality of the clustering the source returns. -/
def wssGroup (g : List ℚ) : ℚ :=
  (g.map (fun v => (v - g.sum / (g.length : ℚ)) ^ 2)).sum

/-- Total within-group sum of squares of a partition. -/
def wssTotal (gs : List (List ℚ)) : ℚ :=
  (gs.map wssGroup).sum

/-- The 3-partition of a 10-element sorted list given by cut points
`0 < i < j < 10`. -/
def cutPartition (l : List ℚ) (i j : ℕ) : List (List ℚ) :=
  [l.take i, (l.drop i).take (j - i), l.drop j]

set_option maxHeartbeats 2000000 in
/-- `chiSquaredDistributionTable` (lines 3095-3577): critical values of the
chi-squared distribution indexed by degrees of freedom and significance
level, with the source's decimal literals read as exact rationals (the
`OfScientific` instance of `ℚ` is exact). -/
def chiSquaredDistributionTable : List (ℕ × List (ℚ × ℚ)) := [
  (1, [(0.995, 0), (0.99, 0), (0.975, 0), (0.95, 0), (0.9, 0.02), (0.5, 0.45), (0.1, 2.71), (0.05, 3.84), (0.025, 5.02), (0.01, 6.63), (0.005, 7.88)]),
  (2, [(0.995, 0.01), (0.99, 0.02), (0.975, 0.05), (0.95, 0.1), (0.9, 0.21), (0.5, 1.39), (0.1, 4.61), (0.05, 5.99), (0.025, 7.38), (0.01, 9.21), (0.005, 10.6)]),
  (3, [(0.995, 0.07), (0.99, 0.11), (0.975, 0.22), (0.95, 0.35), (0.9, 0.58), (0.5, 2.37), (0.1, 6.25), (0.05, 7.81), (0.025, 9.35), (0.01, 11.34), (0.005, 12.84)]),
  (4, [(0.995, 0.21), (0.99, 0.3), (0.975, 0.48), (0.95, 0.71), (0.9, 1.06), (0.5, 3.36), (0.1, 7.78), (0.05, 9.49), (0.025, 11.14), (0.01, 13.28), (0.005, 14.86)]),
  (5, [(0.995, 0.41), (0.99, 0.55), (0.975, 0.83), (0.95, 1.15), (0.9, 1.61), (0.5, 4.35), (0.1, 9.24), (0.05, 11.07), (0.025, 12.83), (0.01, 15.09), (0.005, 16.75)]),
  (6, [(0.995, 0.68), (0.99, 0.87), (0.975, 1.24), (0.95, 1.64), (0.9, 2.2), (0.5, 5.35), (0.1, 10.65), (0.05, 12.59), (0.025, 14.45), (0.01, 16.81), (0.005, 18.55)]),
  (7, [(0.995, 0.99), (0.99, 1.25), (0.975, 1.69), (0.95, 2.17), (0.9, 2.83), (0.5, 6.35), (0.1, 12.02), (0.05, 14.07), (0.025, 16.01), (0.01, 18.48), (0.005, 20.28)]),
  (8, [(0.995, 1.34), (0.99, 1.65), (0.975, 2.18), (0.95, 2.73), (0.9, 3.49), (0.5, 7.34), (0.1, 13.36), (0.05, 15.51), (0.025, 17.53), (0.01, 20.09), (0.005, 21.96)]),
  (9, [(0.995, 1.73), (0.99, 2.09), (0.975, 2.7), (0.95, 3.33), (0.9, 4.17), (0.5, 8.34), (0.1, 14.68), (0.05, 16.92), (0.025, 19.02), (0.01, 21.67), (0.005, 23.59)]),
  (10, [(0.995, 2.16), (0.99, 2.56), (0.975, 3.25), (0.95, 3.94), (0.9, 4.87), (0.5, 9.34), (0.1, 15.99), (0.05, 18.31), (0.025, 20.48), (0.01, 23.21), (0.005, 25.19)]),
  (11, [(0.995, 2.6), (0.99, 3.05), (0.975, 3.82), (0.95, 4.57), (0.9, 5.58), (0.5, 10.34), (0.1, 17.28), (0.05, 19.68), (0.025, 21.92), (0.01, 24.72), (0.005, 26.76)]),
  (12, [(0.995, 3.07), (0.99, 3.57), (0.975, 4.4), (0.95, 5.23), (0.9, 6.3), (0.5, 11.34), (0.1, 18.55), (0.05, 21.03), (0.025, 23.34), (0.01, 26.22), (0.005, 28.3)]),
  (13, [(0.995, 3.57), (0.99, 4.11), (0.975, 5.01), (0.95, 5.89), (0.9, 7.04), (0.5, 12.34), (0.1, 19.81), (0.05, 22.36), (0.025, 24.74), (0.01, 27.69), (0.005, 29.82)]),
  (14, [(0.995, 4.07), (0.99, 4.66), (0.975, 5.63), (0.95, 6.57), (0.9, 7.79), (0.5, 13.34), (0.1, 21.06), (0.05, 23.68), (0.025, 26.12), (0.01, 29.14), (0.005, 31.32)]),
  (15, [(0.995, 4.6), (0.99, 5.23), (0.975, 6.27), (0.95, 7.26), (0.9, 8.55), (0.5, 14.34), (0.1, 22.31), (0.05, 25), (0.025, 27.49), (0.01, 30.58), (0.005, 32.8)]),
  (16, [(0.995, 5.14), (0.99, 5.81), (0.975, 6.91), (0.95, 7.96), (0.9, 9.31), (0.5, 15.34), (0.1, 23.54), (0.05, 26.3), (0.025, 28.85), (0.01, 32), (0.005, 34.27)]),
  (17, [(0.995, 5.7), (0.99, 6.41), (0.975, 7.56), (0.95, 8.67), (0.9, 10.09), (0.5, 16.34), (0.1, 24.77), (0.05, 27.59), (0.025, 30.19), (0.01, 33.41), (0.005, 35.72)]),
  (18, [(0.995, 6.26), (0.99, 7.01), (0.975, 8.23), (0.95, 9.39), (0.9, 10.87), (0.5, 17.34), (0.1, 25.99), (0.05, 28.87), (0.025, 31.53), (0.01, 34.81), (0.005, 37.16)]),
  (19, [(0.995, 6.84), (0.99, 7.63), (0.975, 8.91), (0.95, 10.12), (0.9, 11.65), (0.5, 18.34), (0.1, 27.2), (0.05, 30.14), (0.025, 32.85), (0.01, 36.19), (0.005, 38.58)]),
  (20, [(0.995, 7.43), (0.99, 8.26), (0.975, 9.59), (0.95, 10.85), (0.9, 12.44), (0.5, 19.34), (0.1, 28.41), (0.05, 31.41), (0.025, 34.17), (0.01, 37.57), (0.005, 40)]),
  (21, [(0.995, 8.03), (0.99, 8.9), (0.975, 10.28), (0.95, 11.59), (0.9, 13.24), (0.5, 20.34), (0.1, 29.62), (0.05, 32.67), (0.025, 35.48), (0.01, 38.93), (0.005, 41.4)]),
  (22, [(0.995, 8.64), (0.99, 9.54), (0.975, 10.98), (0.95, 12.34), (0.9, 14.04), (0.5, 21.34), (0.1, 30.81), (0.05, 33.92), (0.025, 36.78), (0.01, 40.29), (0.005, 42.8)]),
  (23, [(0.995, 9.26), (0.99, 10.2), (0.975, 11.69), (0.95, 13.09), (0.9, 14.85), (0.5, 22.34), (0.1, 32.01), (0.05, 35.17), (0.025, 38.08), (0.01, 41.64), (0.005, 44.18)]),
  (24, [(0.995, 9.89), (0.99, 10.86), (0.975, 12.4), (0.95, 13.85), (0.9, 15.66), (0.5, 23.34), (0.1, 33.2), (0.05, 36.42), (0.025, 39.36), (0.01, 42.98), (0.005, 45.56)]),
  (25, [(0.995, 10.52), (0.99, 11.52), (0.975, 13.12), (0.95, 14.61), (0.9, 16.47), (0.5, 24.34), (0.1, 34.28), (0.05, 37.65), (0.025, 40.65), (0.01, 44.31), (0.005, 46.93)]),
  (26, [(0.995, 11.16), (0.99, 12.2), (0.975, 13.84), (0.95, 15.38), (0.9, 17.29), (0.5, 25.34), (0.1, 35.56), (0.05, 38.89), (0.025, 41.92), (0.01, 45.64), (0.005, 48.29)]),
  (27, [(0.995, 11.81), (0.99, 12.88), (0.975, 14.57), (0.95, 16.15), (0.9, 18.11), (0.5, 26.34), (0.1, 36.74), (0.05, 40.11), (0.025, 43.19), (0.01, 46.96), (0.005, 49.65)]),
  (28, [(0.995, 12.46), (0.99, 13.57), (0.975, 15.31), (0.95, 16.93), (0.9, 18.94), (0.5, 27.34), (0.1, 37.92), (0.05, 41.34), (0.025, 44.46), (0.01, 48.28), (0.005, 50.99)]),
  (29, [(0.995, 13.12), (0.99, 14.26), (0.975, 16.05), (0.95, 17.71), (0.9, 19.77), (0.5, 28.34), (0.1, 39.09), (0.05, 42.56), (0.025, 45.72), (0.01, 49.59), (0.005, 52.34)]),
  (30, [(0.995, 13.79), (0.99, 14.95), (0.975, 16.79), (0.95, 18.49), (0.9, 20.6), (0.5, 29.34), (0.1, 40.26), (0.05, 43.77), (0.025, 46.98), (0.01, 50.89), (0.005, 53.67)]),
  (40, [(0.995, 20.71), (0.99, 22.16), (0.975, 24.43), (0.95, 26.51), (0.9, 29.05), (0.5, 39.34), (0.1, 51.81), (0.05, 55.76), (0.025, 59.34), (0.01, 63.69), (0.005, 66.77)]),
  (50, [(0.995, 27.99), (0.99, 29.71), (0.975, 32.36), (0.95, 34.76), (0.9, 37.69), (0.5, 49.33), (0.1, 63.17), (0.05, 67.5), (0.025, 71.42), (0.01, 76.15), (0.005, 79.49)]),
  (60, [(0.995, 35.53), (0.99, 37.48), (0.975, 40.48), (0.95, 43.19), (0.9, 46.46), (0.5, 59.33), (0.1, 74.4), (0.05, 79.08), (0.025, 83.3), (0.01, 88.38), (0.005, 91.95)]),
  (70, [(0.995, 43.28), (0.99, 45.44), (0.975, 48.76), (0.95, 51.74), (0.9, 55.33), (0.5, 69.33), (0.1, 85.53), (0.05, 90.53), (0.025, 95.02), (0.01, 100.42), (0.005, 104.22)]),
  (80, [(0.995, 51.17), (0.99, 53.54), (0.975, 57.15), (0.95, 60.39), (0.9, 64.28), (0.5, 79.33), (0.1, 96.58), (0.05, 101.88), (0.025, 106.63), (0.01, 112.33), (0.005, 116.32)]),
  (90, [(0.995, 59.2), (0.99, 61.75), (0.975, 65.65), (0.95, 69.13), (0.9, 73.29), (0.5, 89.33), (0.1, 107.57), (0.05, 113.14), (0.025, 118.14), (0.01, 124.12), (0.005, 128.3)]),
  (100, [(0.995, 67.33), (0.99, 70.06), (0.975, 74.22), (0.95, 77.93), (0.9, 82.36), (0.5, 99.33), (0.1, 118.5), (0.05, 124.34), (0.025, 129.56), (0.01, 135.81), (0.005, 140.17)])
]

/-- Critical-value lookup `chiSquaredDistributionTable[df][significance]`. -/
def chiSquaredLookup (df : ℤ) (sig : ℚ) : Option ℚ :=
  if 0 ≤ df then
    match chiSquaredDistributionTable.lookup df.toNat with
    | some row => row.lookup sig
    | none => none
  else none

/-- One `observedFrequencies[data[i]]++` step (lines 3623-3628): a
JavaScript array auto-extends with holes (`none`) when written past its
end, and an undefined slot is first initialised to 0. -/
def histInsert (l : List (Option ℚ)) (v : ℕ) : List (Option ℚ) :=
  let l := if v < l.length then l else l ++ List.replicate (v + 1 - l.length) none
  l.set v (some (((l.getD v none).getD 0) + 1))

/-- The observed frequency histogram of `chiSquaredGoodnessOfFit` after
its gap-filling pass (lines 3632-3636): holes become 0. -/
def observedFrequencies (data : List ℕ) : List ℚ :=
  (data.foldl histInsert []).map (fun ov => ov.getD 0)

/-- One step (index `k`, counting down) of the class-collapsing loop of
`chiSquaredGoodnessOfFit` (lines 3649-3658).  Faithful quirks: the mass of
a class with expected count < 3 is added to its predecessor, but `pop()`
then removes the LAST class of each histogram (the same class only when
the low class is the last one); at `k = 0` the addition lands on the junk
property `-1` and only the pop survives.  An out-of-bounds `expected[k]`
read is `undefined`, and `undefined < 3` is false. -/
def chiMergeStep (st : List ℚ × List ℚ) (k : ℕ) : List ℚ × List ℚ :=
  let e := st.1
  let o := st.2
  match e.get? k with
  | some v =>
      if v < 3 then
        (if k = 0 then e.dropLast else (e.set (k - 1) (e.getD (k - 1) 0 + v)).dropLast,
         if k = 0 then o.dropLast
         else (o.set (k - 1) (o.getD (k - 1) 0 + o.getD k 0)).dropLast)
      else st
  | none => st

/-- The full collapsing loop: `k` runs from the INITIAL expected length
minus one down to zero. -/
def chiMergeLoop (e o : List ℚ) : List ℚ × List ℚ :=
  (List.range e.length).reverse.foldl chiMergeStep (e, o)

/-- The χ² accumulation loop (lines 3662-3666), indexed over the observed
histogram. -/
def chiStatistic (o e : List ℚ) : ℚ :=
  (List.range o.length).foldl
    (fun s k => s + (o.getD k 0 - e.getD k 0) ^ 2 / e.getD k 0) 0

/-- `chiSquaredGoodnessOfFit` (lines 3606-3676).  `distributionType` is the
caller-supplied distribution function: applied to the sample mean it
yields the array of hypothesized cell probabilities.  `c = 1` parameter
estimated; a missing critical-value row (degrees of freedom outside the
table) crashes the source with a `TypeError` and is modelled as an
explicit error. -/
def chiSquaredGoodnessOfFit (data : List ℕ) (distributionType : ℚ → List ℚ)
    (significance : ℚ) : Except String Bool := do
  let inputMean ← mean (data.map (fun v : ℕ => (v : ℚ)))
  let c : ℕ := 1
  let hyp := distributionType inputMean
  let observed0 := observedFrequencies data
  let expected0 := (hyp.take observed0.length).map (fun q => q * (data.length : ℚ))
  let merged := chiMergeLoop expected0 observed0
  let chiSquared := chiStatistic merged.2 merged.1
  let degreesOfFreedom : ℤ := (merged.2.length : ℤ) - (c : ℤ) - 1
  match chiSquaredLookup degreesOfFreedom significance with
  | some cv => return decide (cv < chiSquared)
  | none => throw "TypeError: degrees of freedom outside the critical-value table"

/-- Modelled from the spec's words for claim C6's collapsing step: "any
class with expected count < 3 is merged into its predecessor (applying
the same merge to the observed histogram)" — that class itself
disappears (a first class without a predecessor simply disappears). -/
def chiMergeClaimStep (st : List ℚ × List ℚ) (k : ℕ) : List ℚ × List ℚ :=
  let e := st.1
  let o := st.2
  match e.get? k with
  | some v =>
      if v < 3 then
        (if k = 0 then e.eraseIdx 0 else (e.set (k - 1) (e.getD (k - 1) 0 + v)).eraseIdx k,
         if k = 0 then o.eraseIdx 0
         else (o.set (k - 1) (o.getD (k - 1) 0 + o.getD k 0)).eraseIdx k)
      else st
  | none => st

/-- The claim-described pipeline of C6, identical to the embedding except
that the collapsing loop merges each low class into its predecessor as
the spec sentence states. -/
def chiSquaredGoodnessOfFitClaim (data : List ℕ) (distributionType : ℚ → List ℚ)
    (significance : ℚ) : Except String Bool := do
  let inputMean ← mean (data.map (fun v : ℕ => (v : ℚ)))
  let c : ℕ := 1
  let hyp := distributionType inputMean
  let observed0 := observedFrequencies data
  let expected0 := (hyp.take observed0.length).map (fun q => q * (data.length : ℚ))
  let merged := (List.range expected0.length).reverse.foldl chiMergeClaimStep
    (expected0, observed0)
  let chiSquared := chiStatistic merged.2 merged.1
  let degreesOfFreedom : ℤ := (merged.2.length : ℤ) - (c : ℤ) - 1
  match chiSquaredLookup degreesOfFreedom significance with
  | some cv => return decide (cv < chiSquared)
  | none => throw "TypeError: degrees of freedom outside the critical-value table"

/-- `euclideanDistance` (lines 4141-4148) without the final `Math.sqrt`:
the squared distance.  The square root is irrational in general; every
consumer in `kMeansCluster` is either a strictly-monotone comparison
(`labelPoints`) or a zero test of a sum of square roots
(`calculateChange`), both of which are equivalent on squared
distances. -/
def distSq (p q : List ℚ) : ℚ :=
  (List.range p.length).foldl (fun s j => s + (p.getD j 0 - q.getD j 0) ^ 2) 0

/-- The scan of `labelPoints` (lines 4202-4215) for one point:
`minDist` starts at `Number.MAX_VALUE` (modelled `none`), the label at
`-1`, and a strictly smaller distance takes over. -/
def nearestLabel (p : List ℚ) : List (List ℚ) → ℤ → Option ℚ → ℤ → ℤ
  | [], _, _, best => best
  | c :: rest, i, minD, best =>
      let d := distSq p c
      if minD.elim true (fun mv => d < mv) then nearestLabel p rest (i + 1) (some d) i
      else nearestLabel p rest (i + 1) minD best

/-- `labelPoints` (lines 4201-4216). -/
def labelPoints (points centroids : List (List ℚ)) : List ℤ :=
  points.map (fun p => nearestLabel p centroids 0 none (-1))

/-- The coordinate-accumulation inner loop of `calculateCentroids`
(lines 4238-4241). -/
def addPoint (cent p : List ℚ) (dim : ℕ) : List ℚ :=
  (List.range dim).foldl (fun c j => c.set j (c.getD j 0 + p.getD j 0)) cent

/-- The point-accumulation loop of `calculateCentroids` (lines 4233-4243).
A missing or out-of-range label makes the source dereference `undefined`
(a `TypeError`), modelled as an explicit error. -/
def accumGo (dim : ℕ) :
    List (List ℚ) → List ℤ → List (List ℚ) → List ℕ →
      Except String (List (List ℚ) × List ℕ)
  | [], _, cents, counts => .ok (cents, counts)
  | p :: ps, labels, cents, counts =>
      match labels with
      | [] => .error "TypeError: missing label"
      | l :: ls =>
          if 0 ≤ l ∧ l.toNat < cents.length then
            accumGo dim ps ls
              (cents.set l.toNat (addPoint (cents.getD l.toNat []) p dim))
              (counts.set l.toNat (counts.getD l.toNat 0 + 1))
          else .error "TypeError: centroid index out of range"

/-- The rescale loop of `calculateCentroids` (lines 4246-4255): a centroid
that attracted no points raises the "no friends" error before anything is
returned. -/
def rescaleGo (counts : List ℕ) : ℕ → ℕ → List (List ℚ) → Except String (List (List ℚ))
  | _, 0, cents => .ok cents
  | i, remaining + 1, cents =>
      if counts.getD i 0 = 0 then
        .error ("Centroid " ++ toString i ++ " has no friends")
      else
        rescaleGo counts (i + 1) remaining
          (cents.set i ((cents.getD i []).map (fun v => v / (counts.getD i 0 : ℚ))))

/-- `calculateCentroids` (lines 4226-4256). -/
def calculateCentroids (points : List (List ℚ)) (labels : List ℤ) (numCluster : ℕ) :
    Except String (List (List ℚ)) := do
  let dimension := (points.headD []).length
  let st ← accumGo dimension points labels (makeMatrixQ numCluster dimension)
    (List.replicate numCluster 0)
  rescaleGo st.2 0 numCluster st.1

/-- `calculateChange` (lines 4266-4272) on squared distances: the source
sums `Math.sqrt` of each squared distance and the loop only ever tests
that sum against 0; a sum of square roots of nonnegatives is zero exactly
when the sum of the squares is. -/
def calculateChangeSq (left right : List (List ℚ)) : ℚ :=
  (List.range left.length).foldl
    (fun tot i => tot + distSq (left.getD i []) (right.getD i [])) 0

/-- The labels/centroids pair `kMeansCluster` returns. -/
structure KMeansResult where
  labels : List ℤ
  centroids : List (List ℚ)
deriving DecidableEq, Repr

/-- The `while (change !== 0)` loop of `kMeansCluster` (lines 4180-4186).
The source has no iteration bound and can in principle cycle; the fuel
only bounds the modelled run and is not part of the claim statements. -/
def kMeansLoop (points : List (List ℚ)) (numCluster : ℕ) :
    ℕ → List (List ℚ) → Except String KMeansResult
  | 0, _ => .error "model: iteration bound exhausted"
  | fuel + 1, cur =>
      let labels := labelPoints points cur
      match calculateCentroids points labels numCluster with
      | .error e => .error e
      | .ok newCentroids =>
          if calculateChangeSq newCentroids cur = 0 then .ok ⟨labels, newCentroids⟩
          else kMeansLoop points numCluster fuel newCentroids

/-- `kMeansCluster` (lines 4174-4191): random initial centroids via
`sample`, then Lloyd iteration until the total centroid movement is
exactly zero. -/
def kMeansCluster (points : List (List ℚ)) (numCluster : ℕ) (rs : ℕ → ℚ)
    (fuel : ℕ) : Except String KMeansResult :=
  kMeansLoop points numCluster fuel (sample points numCluster rs)

/-- Proof-side reformulation of `modeScan`: the stream with its trailing
`undefined` read is folded into a plain list recursion
(`modeScan_eq_gList` proves the two agree). -/
def gList : List ℚ → ℚ → Option ℚ → ℕ → ℕ → Option ℚ
  | [], last, value, maxSeen, seenThis =>
      if seenThis > maxSeen then some last else value
  | r :: t, last, value, maxSeen, seenThis =>
      if r = last then gList t last value maxSeen (seenThis + 1)
      else if seenThis > maxSeen then gList t r (some last) seenThis 1
      else gList t r value maxSeen 1

/-- The least value of maximal multiplicity in a sorted list, by run
recursion; `modeSorted` is proved to compute exactly this. -/
def leastMode : List ℚ → Option ℚ
  | [] => none
  | a :: t =>
      let run := 1 + (t.takeWhile (fun w => w = a)).length
      let rest := t.dropWhile (fun w => w = a)
      match leastMode rest with
      | none => some a
      | some b => if rest.count b > run then some b else some a
  termination_by l => l.length
  decreasing_by
    simp only [List.length_cons]
    exact Nat.lt_succ_of_le (List.Sublist.length_le (List.dropWhile_sublist _))

/-- Proof-side selector describing one unfinished run of `modeScan`: the
incumbent `(value, maxSeen)`, then the current run of `last` with full
length `total`, then the best of the remaining runs (`leastMode rest`),
promoted left to right on strictly greater counts. -/
def runSel (rest : List ℚ) (last : ℚ) (value : Option ℚ) (maxSeen total : ℕ) :
    Option ℚ :=
  match leastMode rest with
  | none => if total > maxSeen then some last else value
  | some b =>
      if rest.count b > total ∧ rest.count b > maxSeen then some b
      else if total > maxSeen then some last else value

/-- The length of the observed histogram array of
`chiSquaredGoodnessOfFit`: one slot per value `0 .. max(data)`. -/
def histLen (data : List ℕ) : ℕ :=
  data.foldl (fun m v => max m (v + 1)) 0

/-- Counting characterization of the observed histogram: slot `v` holds
the multiplicity of `v` in the sample. -/
def observedHistogramSpec (data : List ℕ) : List ℚ :=
  (List.range (histLen data)).map (fun v => (data.count v : ℚ))

/-- The χ² statistic as a zip over same-length histograms. -/
def chiStatZip (o e : List ℚ) : ℚ :=
  (List.zipWith (fun ov ev => (ov - ev) ^ 2 / ev) o e).sum

end SS

namespace SS

theorem sumLoop_eq (t : List ℚ) : ∀ s c, sumLoop t s c = s + c + t.sum := by
  induction t with
  | nil => intro s c; simp [sumLoop]
  | cons v t ih =>
      intro s c
      simp only [sumLoop, List.sum_cons]
      split <;> rw [ih] <;> ring

theorem sum_eq_listSum (x : List ℚ) : sum x = x.sum := by
  cases x with
  | nil => rfl
  | cons v t => simp [sum, sumLoop_eq]

theorem factorial_range'_eq (k : ℕ) :
    (List.range' 2 k).foldl (fun (acc : ℚ) (i : ℕ) => acc * (i : ℚ)) 1 =
      ((k + 1).factorial : ℚ) := by
  induction k with
  | zero => simp [Nat.factorial]
  | succ k ih =>
      rw [List.range'_concat, List.foldl_append, ih]
      simp only [List.foldl, Nat.factorial_succ]
      push_cast
      ring

theorem factorial_nat (m : ℕ) : factorial (m : ℚ) = .ok (m.factorial : ℚ) := by
  unfold factorial
  rw [if_neg (not_lt.mpr (by exact_mod_cast Nat.zero_le m)),
    if_neg (by simp [Rat.den_natCast])]
  cases m with
  | zero => simp [Nat.factorial]
  | succ k =>
      have hnum : ((k + 1 : ℕ) : ℚ).num.toNat = k + 1 := by
        rw [Rat.num_natCast]; exact Int.toNat_natCast _
      rw [hnum]
      simp [factorial_range'_eq]

/-- C8: `gamma` returns the explicit `NaN` sentinel — without throwing —
for zero and for every negative integer, and for every positive integer
`n` it returns exactly `factorial(n-1) = (n-1)!`; in particular
`gamma(5) = 24` and `factorial(5) = 120`. -/
theorem claim_C8 :
    (∀ n : ℤ, n ≤ 0 → gammaInteger n = .ok .nan) ∧
    (∀ n : ℕ, 1 ≤ n → gammaInteger (n : ℤ) = .ok (.num ((n - 1).factorial : ℚ))) ∧
    gammaInteger 5 = .ok (.num 24) ∧ factorial 5 = .ok 120 := by
  have hpos : ∀ n : ℕ, 1 ≤ n → gammaInteger (n : ℤ) = .ok (.num ((n - 1).factorial : ℚ)) := by
    intro n hn
    have hcast : ((n : ℤ) : ℚ) - 1 = ((n - 1 : ℕ) : ℚ) := by
      have : (1 : ℕ) ≤ n := hn
      push_cast [this]
      ring
    rw [gammaInteger, if_neg (by omega), hcast, factorial_nat]
    rfl
  refine ⟨?_, hpos, ?_, ?_⟩
  · intro n hn
    simp [gammaInteger, hn]
  · have h := hpos 5 (by norm_num)
    norm_num [Nat.factorial] at h
    exact_mod_cast h
  · have h := factorial_nat 5
    norm_num [Nat.factorial] at h
    exact_mod_cast h

/-- Witness for C8 at `n = -3` and `n = 4`. -/
theorem claim_C8_witness :
    gammaInteger (-3) = .ok .nan ∧ gammaInteger 4 = .ok (.num 6) := by
  refine ⟨claim_C8.1 (-3) (by decide), ?_⟩
  have h := claim_C8.2.1 4 (by decide)
  simpa [Nat.factorial] using h

/-- C10: `tTestTwoSample` returns `null` (`none`) — a distinguishable
non-numeric result, without throwing — whenever either sample is empty,
and an omitted or zero `difference` yields the very statistic computed
with hypothesized mean difference 0. -/
theorem claim_C10 :
    (∀ (x y : List ℚ) (d : Option ℚ), x = [] ∨ y = [] →
        tTestTwoSample x y d = .ok none) ∧
    (∀ x y : List ℚ,
        tTestTwoSample x y none = tTestTwoSample x y (some 0)) := by
  constructor
  · intro x y d h
    rcases h with h | h <;> subst h <;> simp [tTestTwoSample, pure, Except.pure]
  · intro x y
    simp [tTestTwoSample]

/-- Witness for C10 at concrete samples. -/
theorem claim_C10_witness :
    tTestTwoSample [] [1] none = .ok none ∧
    tTestTwoSample [1, 2] [3] none = tTestTwoSample [1, 2] [3] (some 0) :=
  ⟨claim_C10.1 [] [1] none (Or.inl rfl), claim_C10.2 [1, 2] [3]⟩

/-- C1: at the failing input `sampleX = [1,1]`, `sampleY = [2,2]` (pooled
length 4, two tie groups) the two rank sums are 5 and 11/2, totalling
21/2 instead of the claimed n(n+1)/2 = 10.  After the first tie group
`[1,1]` is averaged, the source never resets `tiedRanks`, so the second
group `[2,2]` is averaged over the stale index set `{0,1,3}` (instead of
`{2,3}`), breaking total rank mass. -/
theorem claim_C1 :
    wilcoxonRankSum [1, 1] [2, 2] = .ok 5 ∧
    wilcoxonRankSum [2, 2] [1, 1] = .ok (11 / 2) ∧
    (5 : ℚ) + 11 / 2 ≠ (4 * (4 + 1) : ℚ) / 2 := by
  refine ⟨?_, ?_, by norm_num⟩ <;> with_unfolding_all decide

/-- C9: `quantile` always hands its mutating selection pass a copy
(`x.slice()`), so the caller's array after any call — scalar or vector
`p` — is exactly the input; the underlying `quickselect` genuinely
rearranges the array it is given. -/
theorem claim_C9 :
    (∀ (x : List ℚ) (p : ℚ ⊕ List ℚ), (quantile x p).2 = x) ∧
    quickselect [3, 1, 2] 0 0 2 ≠ [3, 1, 2] := by
  refine ⟨fun x p => ?_, by decide⟩
  cases p <;> rfl

/-- Witness for C9: the frame property applied at a concrete call on an
unsorted array. -/
theorem claim_C9_witness :
    (quantile [3, 1, 2] (.inl (1 / 2))).2 = [3, 1, 2] :=
  claim_C9.1 [3, 1, 2] (.inl (1 / 2))

theorem getD_zero_eq_headD (x : List ℚ) : x.getD 0 0 = x.headD 0 := by
  cases x <;> rfl

theorem getD_pred_length_eq_getLastD (x : List ℚ) (h : x ≠ []) :
    x.getD (x.length - 1) 0 = x.getLastD 0 := by
  induction x with
  | nil => cases h rfl
  | cons a t ih =>
      cases t with
      | nil => rfl
      | cons b u =>
          have h2 := ih (by simp)
          simpa [List.getD_cons_succ, List.getLastD] using h2

/-- C3: the exact quantile tie-break ladder of `quantileSorted` on a
sorted sample `x` with fraction `p` and fractional index
`idx = x.length * p`: `p = 0` gives the first element, `p = 1` the last,
a non-integer `idx` the element at the ceiling index (1-indexed:
`x[⌈idx⌉ - 1]` 0-indexed), an integer `idx` on even length the average of
the `idx`-th element and its successor (0-indexed `x[idx-1]`, `x[idx]`),
and on odd length the element `x[idx]` directly; moreover the spec's two
anchors `quantile([3,6,7,8,8,9,10,13,15,16,20], 0.5) = 9` and
`median([10,2,5,100,2,1]) = 3.5` hold through the full
quickselect-based `quantile` path. -/
theorem claim_C3 :
    (∀ x : List ℚ, x ≠ [] → quantileSorted x 0 = .ok (x.headD 0)) ∧
    (∀ x : List ℚ, x ≠ [] → quantileSorted x 1 = .ok (x.getLastD 0)) ∧
    (∀ (x : List ℚ) (p : ℚ), 0 < p → p < 1 → ((x.length : ℚ) * p).den ≠ 1 →
        quantileSorted x p = .ok (x.getD (⌈(x.length : ℚ) * p⌉.toNat - 1) 0)) ∧
    (∀ (x : List ℚ) (p : ℚ), x ≠ [] → 0 < p → p < 1 →
        ((x.length : ℚ) * p).den = 1 → x.length % 2 = 0 →
        quantileSorted x p =
          .ok ((x.getD (((x.length : ℚ) * p).num.toNat - 1) 0 +
                x.getD ((x.length : ℚ) * p).num.toNat 0) / 2)) ∧
    (∀ (x : List ℚ) (p : ℚ), x ≠ [] → 0 < p → p < 1 →
        ((x.length : ℚ) * p).den = 1 → x.length % 2 = 1 →
        quantileSorted x p = .ok (x.getD ((x.length : ℚ) * p).num.toNat 0)) ∧
    (quantile [3, 6, 7, 8, 8, 9, 10, 13, 15, 16, 20] (.inl (1 / 2))).1 =
      .ok (.one 9) ∧
    median [10, 2, 5, 100, 2, 1] = .ok (7 / 2) := by
  refine ⟨?_, ?_, ?_, ?_, ?_, by with_unfolding_all decide, by with_unfolding_all decide⟩
  · intro x hx
    have h0 : x.length ≠ 0 := by simpa [List.length_eq_zero] using hx
    rw [quantileSorted, if_neg h0, if_neg (by norm_num), if_neg (by norm_num),
      if_pos rfl, getD_zero_eq_headD]
  · intro x hx
    have h0 : x.length ≠ 0 := by simpa [List.length_eq_zero] using hx
    rw [quantileSorted, if_neg h0, if_neg (by norm_num), if_pos rfl,
      getD_pred_length_eq_getLastD x hx]
  · intro x p hp0 hp1 hden
    have h0 : x.length ≠ 0 := by
      intro h
      apply hden
      simp [h]
    rw [quantileSorted, if_neg h0, if_neg (by push_neg; constructor <;> linarith),
      if_neg (ne_of_lt hp1), if_neg (ne_of_gt hp0), if_pos hden]
  · intro x p hx hp0 hp1 hden heven
    have h0 : x.length ≠ 0 := by simpa [List.length_eq_zero] using hx
    rw [quantileSorted, if_neg h0, if_neg (by push_neg; constructor <;> linarith),
      if_neg (ne_of_lt hp1), if_neg (ne_of_gt hp0), if_neg (by simpa using hden),
      if_pos heven]
  · intro x p hx hp0 hp1 hden hodd
    have h0 : x.length ≠ 0 := by simpa [List.length_eq_zero] using hx
    rw [quantileSorted, if_neg h0, if_neg (by push_neg; constructor <;> linarith),
      if_neg (ne_of_lt hp1), if_neg (ne_of_gt hp0), if_neg (by simpa using hden),
      if_neg (by omega)]

/-- Witness for C3: each guarded branch applied at a concrete input. -/
theorem claim_C3_witness :
    quantileSorted [1, 2] 0 = .ok 1 ∧
    quantileSorted [1, 2] 1 = .ok 2 ∧
    quantileSorted [1, 2, 3] (1 / 2) = .ok 2 ∧
    quantileSorted [1, 2, 3, 4] (1 / 2) = .ok (5 / 2) ∧
    quantileSorted [1, 2, 3] (1 / 3) = .ok 2 := by
  refine ⟨?_, ?_, ?_, ?_, ?_⟩
  · have h := claim_C3.1 [1, 2] (by decide)
    simpa using h
  · have h := claim_C3.2.1 [1, 2] (by decide)
    simpa using h
  · have h := claim_C3.2.2.1 [1, 2, 3] (1 / 2) (by norm_num) (by norm_num)
      (by with_unfolding_all decide)
    rw [h]
    norm_num
    with_unfolding_all decide
  · have h := claim_C3.2.2.2.1 [1, 2, 3, 4] (1 / 2) (by decide) (by norm_num)
      (by norm_num) (by with_unfolding_all decide) (by decide)
    rw [h]
    with_unfolding_all decide
  · have h := claim_C3.2.2.2.2.1 [1, 2, 3] (1 / 3) (by decide) (by norm_num)
      (by norm_num) (by with_unfolding_all decide) (by decide)
    rw [h]
    with_unfolding_all decide

theorem listSwap_length {α : Type} (x : List α) (i j : ℕ) :
    (listSwap x i j).length = x.length := by
  unfold listSwap
  split <;> simp

theorem shuffleGo_length {α : Type} (rs : ℕ → ℚ) :
    ∀ (L : ℕ) (x : List α) (t : ℕ), ((shuffleGo rs L x t).1).length = x.length := by
  intro L
  induction L with
  | zero => intro x t; rfl
  | succ L ih => intro x t; rw [shuffleGo, ih, listSwap_length]

theorem mean_ok (x : List ℚ) (h : x.length ≠ 0) :
    mean x = .ok (sum x / (x.length : ℚ)) := by
  rw [mean, if_neg h]

theorem permDistribution_ok (rs : ℕ → ℚ) (mid : ℕ) (hm : 1 ≤ mid) :
    ∀ (k : ℕ) (allData : List ℚ) (t : ℕ), mid < allData.length →
      ∃ out, permDistribution rs mid k allData t = .ok out := by
  intro k
  induction k with
  | zero => exact fun allData t _ => ⟨_, rfl⟩
  | succ k ih =>
      intro allData t hlen
      have hlen1 : ((shuffleInPlace allData rs t).1).length = allData.length := by
        unfold shuffleInPlace
        exact shuffleGo_length rs _ allData t
      have htake : ((shuffleInPlace allData rs t).1.take mid).length ≠ 0 := by
        rw [List.length_take]
        omega
      have hdrop : ((shuffleInPlace allData rs t).1.drop mid).length ≠ 0 := by
        rw [List.length_drop]
        omega
      obtain ⟨out, hout⟩ := ih (shuffleInPlace allData rs t).1
        (shuffleInPlace allData rs t).2 (by omega)
      rw [permDistribution, mean_ok _ htake, mean_ok _ hdrop]
      simp only [bind, Except.bind, pure, Except.pure]
      rw [hout]
      exact ⟨_, rfl⟩

/-- C2 counterexample: the selector value `"two-sided"` named by the claim
is rejected with the explicit selector error. -/
theorem claim_C2_counterexample :
    permutationTest [0] [1] (some "two-sided") (some 1) (fun _ => 0) =
      .error "`alternative` must be either 'two_side', 'greater', or 'less'." := by
  with_unfolding_all decide

/-- C2 (amended): `permutationTest` accepts exactly the
alternative-hypothesis selector values `"two_side"` (also the default,
the two-tail option), `"greater"` and `"less"`, and raises the explicit
selector error for any other value — the spelling `"two-sided"` named by
the claim is NOT accepted. -/
theorem claim_C2 :
    (∀ (X Y : List ℚ) (alt : String) (k : Option ℕ) (rs : ℕ → ℚ),
        alt ≠ "two_side" → alt ≠ "greater" → alt ≠ "less" →
        permutationTest X Y (some alt) k rs =
          .error "`alternative` must be either 'two_side', 'greater', or 'less'.") ∧
    (∀ (X Y : List ℚ) (alt : Option String) (k : Option ℕ) (rs : ℕ → ℚ),
        (alt = none ∨ alt = some "two_side" ∨ alt = some "greater" ∨ alt = some "less") →
        X ≠ [] → Y ≠ [] → ∃ q, permutationTest X Y alt k rs = .ok q) := by
  constructor
  · intro X Y alt k rs h1 h2 h3
    rw [permutationTest]
    simp only [Option.getD_some]
    rw [if_pos ⟨h1, h2, h3⟩]
  · intro X Y alt k rs halt hX hY
    have hXlen : X.length ≠ 0 := by simpa [List.length_eq_zero] using hX
    have hYlen : Y.length ≠ 0 := by simpa [List.length_eq_zero] using hY
    have hmid1 : 1 ≤ (X ++ Y).length / 2 := by
      rw [List.length_append]
      omega
    have hmid2 : (X ++ Y).length / 2 < (X ++ Y).length := by
      rw [List.length_append]
      omega
    obtain ⟨out, hout⟩ :=
      permDistribution_ok rs ((X ++ Y).length / 2) hmid1 (k.getD 10000) (X ++ Y) 0 hmid2
    have hguard : ¬(alt.getD "two_side" ≠ "two_side" ∧ alt.getD "two_side" ≠ "greater" ∧
        alt.getD "two_side" ≠ "less") := by
      rcases halt with h | h | h | h <;> subst h <;> simp
    rw [permutationTest, if_neg hguard]
    rw [mean_ok X hXlen, mean_ok Y hYlen]
    simp only [bind, Except.bind, pure, Except.pure]
    rw [hout]
    exact ⟨_, rfl⟩

/-- Witness for C2: the three accepted selectors and the default all
return a p-value on a concrete pair of samples. -/
theorem claim_C2_witness :
    (∃ q, permutationTest [1, 2] [3] (some "two_side") (some 2) (fun _ => 0) = .ok q) ∧
    (∃ q, permutationTest [1, 2] [3] (some "greater") (some 2) (fun _ => 0) = .ok q) ∧
    (∃ q, permutationTest [1, 2] [3] (some "less") (some 2) (fun _ => 0) = .ok q) ∧
    (∃ q, permutationTest [1, 2] [3] none (some 2) (fun _ => 0) = .ok q) ∧
    permutationTest [1, 2] [3] (some "two-tailed") (some 2) (fun _ => 0) =
      .error "`alternative` must be either 'two_side', 'greater', or 'less'." :=
  ⟨claim_C2.2 [1, 2] [3] (some "two_side") (some 2) (fun _ => 0)
      (Or.inr (Or.inl rfl)) (by decide) (by decide),
   claim_C2.2 [1, 2] [3] (some "greater") (some 2) (fun _ => 0)
      (Or.inr (Or.inr (Or.inl rfl))) (by decide) (by decide),
   claim_C2.2 [1, 2] [3] (some "less") (some 2) (fun _ => 0)
      (Or.inr (Or.inr (Or.inr rfl))) (by decide) (by decide),
   claim_C2.2 [1, 2] [3] none (some 2) (fun _ => 0) (Or.inl rfl)
      (by decide) (by decide),
   claim_C2.1 [1, 2] [3] "two-tailed" (some 2) (fun _ => 0)
      (by decide) (by decide) (by decide)⟩

theorem numericSort_all_eq (x : List ℚ) (v : ℚ) (h : ∀ w ∈ x, w = v) :
    numericSort x = List.replicate x.length v := by
  have hperm := List.perm_insertionSort (α := ℚ) (· ≤ ·) x
  rw [List.eq_replicate_iff]
  exact ⟨hperm.length_eq, fun b hb => h b (hperm.mem_iff.mp hb)⟩

theorem uniqueCountGo_replicate (v : ℚ) :
    ∀ n, uniqueCountGo v (List.replicate n v) = 0 := by
  intro n
  induction n with
  | zero => rfl
  | succ n ih => simpa [List.replicate_succ, uniqueCountGo] using ih

theorem uniqueCountSorted_all_eq (x : List ℚ) (v : ℚ) (hx : x ≠ [])
    (h : ∀ w ∈ x, w = v) : uniqueCountSorted (numericSort x) = 1 := by
  rw [numericSort_all_eq x v h]
  cases hn : x.length with
  | zero => exact absurd (List.length_eq_zero.mp hn) hx
  | succ n =>
      rw [List.replicate_succ, uniqueCountSorted, uniqueCountGo_replicate]

/-- C5: `ckmeans` throws whenever the requested cluster count exceeds the
number of data values; for a nonempty all-identical sample (and an
admissible requested count) it returns the single cluster holding the
whole sorted input; and on the spec's example it returns exactly 3
nonempty groups whose concatenation is the sorted input and whose total
within-group sum of squares is minimal among all 3-partitions of the
sorted sequence (cut points `0 < i < j < 10`). -/
theorem claim_C5 :
    (∀ (x : List ℚ) (k : ℕ), k > x.length →
        ckmeans x k = .error "cannot generate more classes than there are data values") ∧
    (∀ (x : List ℚ) (k : ℕ) (v : ℚ), x ≠ [] → (∀ w ∈ x, w = v) → k ≤ x.length →
        ckmeans x k = .ok [numericSort x]) ∧
    ckmeans [-1, 2, -1, 2, 4, 5, 6, -1, 2, -1] 3 =
      .ok [[-1, -1, -1, -1], [2, 2, 2], [4, 5, 6]] ∧
    ([[(-1 : ℚ), -1, -1, -1], [2, 2, 2], [4, 5, 6]]).length = 3 ∧
    (∀ g ∈ [[(-1 : ℚ), -1, -1, -1], [2, 2, 2], [4, 5, 6]], g ≠ []) ∧
    [(-1 : ℚ), -1, -1, -1] ++ ([2, 2, 2] ++ [4, 5, 6]) =
      numericSort [-1, 2, -1, 2, 4, 5, 6, -1, 2, -1] ∧
    (∀ i : ℕ, i < 10 → ∀ j : ℕ, j < 10 → 1 ≤ i → i < j →
        wssTotal [[(-1 : ℚ), -1, -1, -1], [2, 2, 2], [4, 5, 6]] ≤
          wssTotal (cutPartition (numericSort [-1, 2, -1, 2, 4, 5, 6, -1, 2, -1]) i j)) := by
  refine ⟨?_, ?_, by set_option maxRecDepth 4000 in with_unfolding_all decide, rfl,
    by decide, by with_unfolding_all decide, by with_unfolding_all decide⟩
  · intro x k h
    rw [ckmeans, if_pos h]
  · intro x k v hx hall hk
    have hu := uniqueCountSorted_all_eq x v hx hall
    rw [ckmeans, if_neg (by omega)]
    simp [hu]

/-- Witness for C5: the overflow error at `([1], 2)` and the degenerate
single cluster at `([7, 7], 1)`. -/
theorem claim_C5_witness :
    ckmeans [1] 2 = .error "cannot generate more classes than there are data values" ∧
    ckmeans [7, 7] 1 = .ok [[7, 7]] := by
  refine ⟨claim_C5.1 [1] 2 (by decide), ?_⟩
  have h := claim_C5.2.1 [7, 7] 1 7 (by decide) (by decide) (by decide)
  have hsort : numericSort [7, 7] = [7, 7] := by with_unfolding_all decide
  rw [hsort] at h
  exact h

theorem histLen_foldl (ds : List ℕ) :
    ∀ a : ℕ, ds.foldl (fun m v => max m (v + 1)) a = max a (histLen ds) := by
  induction ds with
  | nil => intro a; simp [histLen]
  | cons d rest ih =>
      intro a
      simp only [histLen, List.foldl_cons] at *
      rw [ih (max a (d + 1)), ih (max 0 (d + 1))]
      omega

theorem histLen_cons (d : ℕ) (rest : List ℕ) :
    histLen (d :: rest) = max (d + 1) (histLen rest) := by
  have h := histLen_foldl rest (max 0 (d + 1))
  simp only [histLen, List.foldl_cons] at h ⊢
  rw [h]
  omega

theorem histInsert_length (st : List (Option ℚ)) (d : ℕ) :
    (histInsert st d).length = max st.length (d + 1) := by
  unfold histInsert
  by_cases h : d < st.length <;> simp [h] <;> omega

theorem histInsert_getD (st : List (Option ℚ)) (d v : ℕ) :
    (histInsert st d).getD v none =
      if v = d then some (((st.getD d none).getD 0) + 1) else st.getD v none := by
  have hpad : ∀ w : ℕ,
      (if d < st.length then st else st ++ List.replicate (d + 1 - st.length) none).getD
        w none = st.getD w none := by
    intro w
    by_cases h : d < st.length
    · rw [if_pos h]
    · rw [if_neg h]
      by_cases hw : w < st.length
      · rw [List.getD_eq_getElem?_getD, List.getElem?_append_left hw,
          ← List.getD_eq_getElem?_getD]
      · rw [List.getD_eq_getElem?_getD, List.getD_eq_getElem?_getD,
          List.getElem?_append_right (by omega),
          List.getElem?_eq_none (by omega : st.length ≤ w),
          List.getElem?_replicate]
        split <;> rfl
  have hlen : d <
      (if d < st.length then st else st ++ List.replicate (d + 1 - st.length) none).length := by
    by_cases h : d < st.length
    · rw [if_pos h]; exact h
    · rw [if_neg h]
      simp only [List.length_append, List.length_replicate]
      omega
  unfold histInsert
  by_cases hv : v = d
  · subst hv
    rw [if_pos rfl, List.getD_eq_getElem?_getD, List.getElem?_set_eq hlen]
    have hp := hpad v
    rw [List.getD_eq_getElem?_getD, List.getD_eq_getElem?_getD] at hp
    simp [hp]
  · rw [if_neg hv, List.getD_eq_getElem?_getD, List.getElem?_set_ne (fun h => hv h.symm),
      ← List.getD_eq_getElem?_getD, hpad v]

theorem histFold_spec (ds : List ℕ) :
    ∀ st : List (Option ℚ),
      (ds.foldl histInsert st).length = max st.length (histLen ds) ∧
      ∀ v : ℕ, (ds.foldl histInsert st).getD v none =
        if ds.count v = 0 then st.getD v none
        else some (((st.getD v none).getD 0) + (ds.count v : ℚ)) := by
  induction ds with
  | nil => intro st; simp [histLen]
  | cons d rest ih =>
      intro st
      rw [List.foldl_cons]
      obtain ⟨ihlen, ihget⟩ := ih (histInsert st d)
      constructor
      · rw [ihlen, histInsert_length, histLen_cons]
        omega
      · intro v
        rw [ihget v]
        by_cases hv : v = d
        · subst hv
          rw [List.count_cons_self, histInsert_getD, if_pos rfl]
          by_cases hc : rest.count v = 0 <;> simp [hc] <;> push_cast <;> ring
        · rw [List.count_cons_of_ne (fun h => hv h), histInsert_getD, if_neg hv]

theorem observedFrequencies_eq (data : List ℕ) :
    observedFrequencies data = observedHistogramSpec data := by
  obtain ⟨hlen, hget⟩ := histFold_spec data []
  have hlen' : (data.foldl histInsert []).length = histLen data := by
    simpa using hlen
  apply List.ext_getElem
  · simp [observedFrequencies, observedHistogramSpec, hlen']
  · intro i h1 h2
    simp only [observedFrequencies, List.getElem_map, observedHistogramSpec,
      List.getElem_range]
    have hin : i < (data.foldl histInsert []).length := by
      simp only [observedFrequencies, List.length_map] at h1
      exact h1
    have : (data.foldl histInsert []).getD i none = (data.foldl histInsert [])[i] := by
      rw [List.getD_eq_getElem?_getD, List.getElem?_eq_getElem hin]
      rfl
    rw [← this, hget i]
    by_cases hc : data.count i = 0 <;> simp [hc]

theorem chiMergeStep_length (st : List ℚ × List ℚ) (k : ℕ)
    (h : st.1.length = st.2.length) :
    (chiMergeStep st k).1.length = (chiMergeStep st k).2.length := by
  unfold chiMergeStep
  cases hk : st.1[k]? with
  | none => simp [hk, h]
  | some v =>
      by_cases h3 : v < 3
      · by_cases h0 : k = 0
        · subst h0
          simp [hk, h3, h]
        · simp [hk, h3, h0, h]
      · simp [hk, h3, h]

theorem chiMergeFold_length (ks : List ℕ) :
    ∀ st : List ℚ × List ℚ, st.1.length = st.2.length →
      ((ks.foldl chiMergeStep st).1).length = ((ks.foldl chiMergeStep st).2).length := by
  induction ks with
  | nil => exact fun st h => h
  | cons k rest ih =>
      intro st h
      rw [List.foldl_cons]
      exact ih _ (chiMergeStep_length st k h)

theorem foldl_add_map (g : ℕ → ℚ) (l : List ℕ) :
    ∀ a : ℚ, l.foldl (fun s k => s + g k) a = a + (l.map g).sum := by
  induction l with
  | nil => intro a; simp
  | cons k rest ih =>
      intro a
      rw [List.foldl_cons, ih (a + g k)]
      simp [List.sum_cons]
      ring

theorem chiStatistic_eq_zip (o e : List ℚ) (h : o.length = e.length) :
    chiStatistic o e = chiStatZip o e := by
  rw [chiStatistic, foldl_add_map (fun k => (o.getD k 0 - e.getD k 0) ^ 2 / e.getD k 0)
    (List.range o.length) 0, zero_add, chiStatZip]
  congr 1
  apply List.ext_getElem
  · simp [h]
  · intro i h1 h2
    simp only [List.getElem_map, List.getElem_range, List.getElem_zipWith]
    have hio : i < o.length := by simpa using h1
    have hie : i < e.length := by omega
    rw [List.getD_eq_getElem?_getD, List.getElem?_eq_getElem hio,
      List.getD_eq_getElem?_getD, List.getElem?_eq_getElem hie]
    rfl

/-- C6 counterexample: a sample over `{0,1,2,3}` with observed counts
`[4,3,6,7]` and hypothesized probabilities `[0.3, 0.02, 0.3, 0.38]`
(expected `[6, 0.4, 6, 7.6]`).  The low-expected class is INTERIOR: the
source adds its mass to class 0 but pops class 3, keeping the low class
alive (χ² ≈ 16.96, reject), while the claim's merge-into-predecessor
removes the low class (χ² ≈ 0.10, accept) — the boolean decisions
differ. -/
theorem claim_C6_counterexample :
    chiSquaredGoodnessOfFit
      (List.replicate 4 0 ++ List.replicate 3 1 ++ List.replicate 6 2 ++ List.replicate 7 3)
      (fun _ => [3 / 10, 1 / 50, 3 / 10, 19 / 50]) (1 / 20) = .ok true ∧
    chiSquaredGoodnessOfFitClaim
      (List.replicate 4 0 ++ List.replicate 3 1 ++ List.replicate 6 2 ++ List.replicate 7 3)
      (fun _ => [3 / 10, 1 / 50, 3 / 10, 19 / 50]) (1 / 20) = .ok false := by
  constructor <;> with_unfolding_all decide

/-- C6 (amended): `chiSquaredGoodnessOfFit` builds the observed histogram
as the multiplicity of each value `0 .. max(sample)`, the expected
histogram as the supplied distribution function at the sample mean scaled
by the sample size, then — working from the upper end downward — adds the
mass of any class with expected count < 3 to its predecessor while
discarding the LAST class of both histograms (which merges the low class
into its predecessor exactly when the low-expected classes lie at the
tail), computes χ² = Σ (O-E)²/E over the surviving classes, and returns
the boolean reject/accept decision: `true` exactly when the table
critical value at the resulting degrees of freedom (classes - 2) and
requested significance is less than the statistic — not a raw p-value. -/
theorem claim_C6 :
    ∀ (data : List ℕ) (dist : ℚ → List ℚ) (sig : ℚ) (μ : ℚ),
      data ≠ [] →
      μ = sum (data.map (fun v : ℕ => (v : ℚ))) / (data.length : ℚ) →
      histLen data ≤ (dist μ).length →
      ∀ eF oF,
        chiMergeLoop (((dist μ).take (histLen data)).map (fun q => q * (data.length : ℚ)))
          (observedHistogramSpec data) = (eF, oF) →
        ∀ cv, chiSquaredLookup ((oF.length : ℤ) - 2) sig = some cv →
          chiSquaredGoodnessOfFit data dist sig = .ok (decide (cv < chiStatZip oF eF)) := by
  intro data dist sig mu hne hmu hcov eF oF hmerge cv hcv
  have hdlen : data.length ≠ 0 := by simpa [List.length_eq_zero] using hne
  have hmlen : (data.map (fun v : ℕ => (v : ℚ))).length ≠ 0 := by simpa using hdlen
  have hmean : mean (data.map (fun v : ℕ => (v : ℚ))) = .ok mu := by
    rw [mean_ok _ hmlen, List.length_map, hmu]
  have hobs : observedFrequencies data = observedHistogramSpec data :=
    observedFrequencies_eq data
  have hobslen : (observedHistogramSpec data).length = histLen data := by
    simp [observedHistogramSpec]
  have htakelen :
      (((dist mu).take (histLen data)).map (fun q => q * (data.length : ℚ))).length =
        histLen data := by
    rw [List.length_map, List.length_take]
    omega
  have hlens : eF.length = oF.length := by
    have h0 : (((dist mu).take (histLen data)).map
        (fun q => q * (data.length : ℚ))).length = (observedHistogramSpec data).length := by
      rw [htakelen, hobslen]
    have hl := chiMergeFold_length
      (List.range (((dist mu).take (histLen data)).map
        (fun q => q * (data.length : ℚ))).length).reverse
      ((((dist mu).take (histLen data)).map (fun q => q * (data.length : ℚ))),
        observedHistogramSpec data) h0
    rw [show (List.range (((dist mu).take (histLen data)).map
        (fun q => q * (data.length : ℚ))).length).reverse.foldl chiMergeStep
        ((((dist mu).take (histLen data)).map (fun q => q * (data.length : ℚ))),
          observedHistogramSpec data) = (eF, oF) from hmerge] at hl
    exact hl
  rw [chiSquaredGoodnessOfFit, hmean]
  simp only [bind, Except.bind, pure, Except.pure]
  rw [hobs, hobslen, hmerge]
  rw [chiStatistic_eq_zip oF eF hlens.symm]
  rw [show ((oF.length : ℤ) - (1 : ℕ) - 1) = ((oF.length : ℤ) - 2) by push_cast; ring]
  rw [hcv]

/-- Witness for C6 at the interior-low-class sample: the merged
histograms are `E = [32/5, 2/5, 6]`, `O = [7, 3, 6]`, the critical value
at one degree of freedom and significance 0.05 is 96/25, and the decision
is the comparison of that critical value with the zip-form statistic. -/
theorem claim_C6_witness :
    chiSquaredGoodnessOfFit
      (List.replicate 4 0 ++ List.replicate 3 1 ++ List.replicate 6 2 ++ List.replicate 7 3)
      (fun _ => [3 / 10, 1 / 50, 3 / 10, 19 / 50]) (1 / 20) =
      .ok (decide ((96 / 25 : ℚ) < chiStatZip [7, 3, 6] [32 / 5, 2 / 5, 6])) :=
  claim_C6
    (List.replicate 4 0 ++ List.replicate 3 1 ++ List.replicate 6 2 ++ List.replicate 7 3)
    (fun _ => [3 / 10, 1 / 50, 3 / 10, 19 / 50]) (1 / 20) (9 / 5)
    (by decide) (by with_unfolding_all decide) (by with_unfolding_all decide)
    [32 / 5, 2 / 5, 6] [7, 3, 6]
    (by with_unfolding_all decide) (96 / 25) (by with_unfolding_all decide)

theorem accumGo_spec (dim : ℕ) :
    ∀ (points : List (List ℚ)) (labels : List ℤ) (cents : List (List ℚ)) (counts : List ℕ),
      labels.length = points.length →
      (∀ l ∈ labels, 0 ≤ l ∧ l.toNat < cents.length) →
      counts.length = cents.length →
      ∃ cents' counts', accumGo dim points labels cents counts = .ok (cents', counts') ∧
        counts'.length = counts.length ∧
        ∀ i : ℕ, i < counts.length →
          counts'.getD i 0 = counts.getD i 0 + labels.count (i : ℤ) := by
  intro points
  induction points with
  | nil =>
      intro labels cents counts hlen _ _
      have : labels = [] := List.length_eq_zero.mp (by simpa using hlen)
      subst this
      exact ⟨cents, counts, rfl, rfl, fun i _ => by simp⟩
  | cons p ps ih =>
      intro labels cents counts hlen hwf hcl
      cases labels with
      | nil => simp at hlen
      | cons l ls =>
          obtain ⟨hl0, hlb⟩ := hwf l (by simp)
          have hguard : 0 ≤ l ∧ l.toNat < cents.length := ⟨hl0, hlb⟩
          have hcount : l.toNat < counts.length := by omega
          obtain ⟨cents', counts', heq, hclen, hget⟩ := ih ls
            (cents.set l.toNat (addPoint (cents.getD l.toNat []) p dim))
            (counts.set l.toNat (counts.getD l.toNat 0 + 1))
            (by simpa using hlen)
            (by intro a ha; have := hwf a (by simp [ha]); simpa using this)
            (by simpa using hcl)
          refine ⟨cents', counts', ?_, by simpa using hclen, ?_⟩
          · rw [accumGo, if_pos hguard]
            exact heq
          · intro i hi
            have hi' : i < (counts.set l.toNat (counts.getD l.toNat 0 + 1)).length := by
              simpa using hi
            rw [hget i hi']
            simp only [List.count_cons, beq_iff_eq]
            by_cases hil : l = (i : ℤ)
            · have hnat : l.toNat = i := by omega
              rw [if_pos hil, List.getD_eq_getElem?_getD, hnat,
                List.getElem?_set_eq (by omega), Option.getD_some]
              omega
            · have hnat : l.toNat ≠ i := by omega
              rw [if_neg hil, List.getD_eq_getElem?_getD,
                List.getElem?_set_ne hnat, ← List.getD_eq_getElem?_getD]
              omega

theorem rescaleGo_ok (counts : List ℕ) :
    ∀ (remaining start : ℕ) (cents : List (List ℚ)),
      (∀ j, start ≤ j → j < start + remaining → counts.getD j 0 ≠ 0) →
      ∃ cents', rescaleGo counts start remaining cents = .ok cents' := by
  intro remaining
  induction remaining with
  | zero => exact fun start cents _ => ⟨cents, rfl⟩
  | succ r ih =>
      intro start cents hall
      obtain ⟨cents', h⟩ := ih (start + 1)
        (cents.set start ((cents.getD start []).map
          (fun v => v / (counts.getD start 0 : ℚ))))
        (fun j h1 h2 => hall j (by omega) (by omega))
      refine ⟨cents', ?_⟩
      rw [rescaleGo, if_neg (hall start (by omega) (by omega))]
      exact h

theorem rescaleGo_error (counts : List ℕ) :
    ∀ (remaining start : ℕ) (cents : List (List ℚ)),
      (∃ j, start ≤ j ∧ j < start + remaining ∧ counts.getD j 0 = 0) →
      ∃ i : ℕ, rescaleGo counts start remaining cents =
        .error ("Centroid " ++ toString i ++ " has no friends") := by
  intro remaining
  induction remaining with
  | zero =>
      rintro start cents ⟨j, h1, h2, _⟩
      omega
  | succ r ih =>
      intro start cents hex
      by_cases h0 : counts.getD start 0 = 0
      · refine ⟨start, ?_⟩
        rw [rescaleGo, if_pos h0]
      · obtain ⟨j, h1, h2, hj⟩ := hex
        have hj1 : start + 1 ≤ j := by
          rcases Nat.eq_or_lt_of_le h1 with h | h
          · exact absurd (h ▸ hj) h0
          · omega
        obtain ⟨i, hi⟩ := ih (start + 1)
          (cents.set start ((cents.getD start []).map
            (fun v => v / (counts.getD start 0 : ℚ))))
          ⟨j, hj1, by omega, hj⟩
        refine ⟨i, ?_⟩
        rw [rescaleGo, if_neg h0]
        exact hi

theorem kMeansLoop_spec (points : List (List ℚ)) (numCluster : ℕ) :
    ∀ (fuel : ℕ) (cur : List (List ℚ)) (labels : List ℤ) (cents : List (List ℚ)),
      kMeansLoop points numCluster fuel cur = .ok ⟨labels, cents⟩ →
      ∃ prev, labels = labelPoints points prev ∧
        calculateCentroids points labels numCluster = .ok cents ∧
        calculateChangeSq cents prev = 0 := by
  intro fuel
  induction fuel with
  | zero =>
      intro cur labels cents h
      exact absurd h (by simp [kMeansLoop])
  | succ f ih =>
      intro cur labels cents h
      rw [kMeansLoop] at h
      rcases hc : calculateCentroids points (labelPoints points cur) numCluster with e | newC
      · rw [hc] at h
        exact absurd h (by simp)
      · rw [hc] at h
        dsimp only at h
        by_cases hz : calculateChangeSq newC cur = 0
        · rw [if_pos hz] at h
          have h' : (⟨labelPoints points cur, newC⟩ : KMeansResult) = ⟨labels, cents⟩ := by
            injection h
          rw [KMeansResult.mk.injEq] at h'
          obtain ⟨h1, h2⟩ := h'
          refine ⟨cur, h1.symm, ?_, ?_⟩
          · rw [← h1, hc, h2]
          · rw [← h2]
            exact hz
        · rw [if_neg hz] at h
          exact ih newC labels cents h

/-- C7: `kMeansCluster` iterates Lloyd's algorithm until the total
centroid movement is exactly zero — any successful result consists of
labels assigned by nearest-(squared-Euclidean)-distance to some centroid
list `prev`, centroids recomputed from exactly those labels, and zero
total movement between the two — and `calculateCentroids` raises the
explicit "Centroid i has no friends" error precisely when some centroid
index in `[0, numCluster)` attracted no point, instead of silently
producing a degenerate cluster. -/
theorem claim_C7 :
    (∀ (points : List (List ℚ)) (labels : List ℤ) (numCluster : ℕ),
        labels.length = points.length →
        (∀ l ∈ labels, 0 ≤ l ∧ l.toNat < numCluster) →
        (((∃ i, i < numCluster ∧ (i : ℤ) ∉ labels) →
            ∃ i : ℕ, calculateCentroids points labels numCluster =
              .error ("Centroid " ++ toString i ++ " has no friends")) ∧
         ((∀ i, i < numCluster → (i : ℤ) ∈ labels) →
            ∃ cents, calculateCentroids points labels numCluster = .ok cents))) ∧
    (∀ (points : List (List ℚ)) (numCluster : ℕ) (rs : ℕ → ℚ) (fuel : ℕ)
        (labels : List ℤ) (cents : List (List ℚ)),
        kMeansCluster points numCluster rs fuel = .ok ⟨labels, cents⟩ →
        ∃ prev, labels = labelPoints points prev ∧
          calculateCentroids points labels numCluster = .ok cents ∧
          calculateChangeSq cents prev = 0) := by
  constructor
  · intro points labels numCluster hlen hwf
    have hclen : (makeMatrixQ numCluster (points.headD []).length).length = numCluster := by
      simp [makeMatrixQ]
    obtain ⟨cents', counts', heq, hcl, hget⟩ := accumGo_spec (points.headD []).length
      points labels (makeMatrixQ numCluster (points.headD []).length)
      (List.replicate numCluster 0) hlen
      (fun l hl => ⟨(hwf l hl).1, by rw [hclen]; exact (hwf l hl).2⟩)
      (by simp [makeMatrixQ])
    have hcntlen : (List.replicate numCluster (0 : ℕ)).length = numCluster := by simp
    constructor
    · rintro ⟨i, hi, hmem⟩
      have hz : counts'.getD i 0 = 0 := by
        rw [hget i (by rw [hcntlen]; exact hi)]
        simp [List.count_eq_zero.mpr hmem]
      obtain ⟨j, hj⟩ := rescaleGo_error counts' numCluster 0 cents'
        ⟨i, by omega, by omega, hz⟩
      refine ⟨j, ?_⟩
      rw [calculateCentroids]
      simp only [bind, Except.bind]
      rw [heq]
      exact hj
    · intro hall
      have hnz : ∀ j, 0 ≤ j → j < 0 + numCluster → counts'.getD j 0 ≠ 0 := by
        intro j _ hj
        rw [hget j (by rw [hcntlen]; omega)]
        have hcnt : labels.count (j : ℤ) ≠ 0 := by
          rw [Ne, List.count_eq_zero]
          intro hnot
          exact hnot (hall j (by omega))
        omega
      obtain ⟨cents'', h2⟩ := rescaleGo_ok counts' numCluster 0 cents' hnz
      refine ⟨cents'', ?_⟩
      rw [calculateCentroids]
      simp only [bind, Except.bind]
      rw [heq]
      exact h2
  · intro points numCluster rs fuel labels cents h
    rw [kMeansCluster] at h
    exact kMeansLoop_spec points numCluster fuel (sample points numCluster rs) labels cents h

/-- Witness for C7: at `points = [[0],[1]]` with two clusters, the
assignment `[0,0]` starves centroid 1 and raises the "no friends" error;
the assignment `[0,1]` feeds both centroids; and the concrete run with
the constant-zero entropy source converges with zero final movement. -/
theorem claim_C7_witness :
    (∃ i : ℕ, calculateCentroids [[0], [1]] [0, 0] 2 =
      .error ("Centroid " ++ toString i ++ " has no friends")) ∧
    (∃ cents, calculateCentroids [[0], [1]] [0, 1] 2 = .ok cents) ∧
    (∃ prev, ([1, 0] : List ℤ) = labelPoints [[0], [1]] prev ∧
      calculateCentroids [[0], [1]] [1, 0] 2 = .ok [[1], [0]] ∧
      calculateChangeSq [[1], [0]] prev = 0) := by
  refine ⟨?_, ?_, ?_⟩
  · exact ((claim_C7.1 [[0], [1]] [0, 0] 2 (by decide) (by decide)).1
      ⟨1, by omega, by decide⟩)
  · exact ((claim_C7.1 [[0], [1]] [0, 1] 2 (by decide) (by decide)).2
      (by intro i hi; interval_cases i <;> decide))
  · exact claim_C7.2 [[0], [1]] 2 (fun _ => 0) 10 [1, 0] [[1], [0]]
      (by with_unfolding_all decide)

theorem modeScan_eq_gList :
    ∀ (t : List ℚ) (last : ℚ) (value : Option ℚ) (maxSeen seenThis : ℕ),
      modeScan (t.map some ++ [none]) (some last) value maxSeen seenThis =
        gList t last value maxSeen seenThis := by
  intro t
  induction t with
  | nil =>
      intro last value maxSeen seenThis
      rw [List.map_nil, List.nil_append, modeScan, if_pos (by simp), gList, modeScan]
  | cons r t ih =>
      intro last value maxSeen seenThis
      rw [List.map_cons, List.cons_append, modeScan, gList]
      by_cases hr : r = last
      · rw [if_neg (by simp [hr]), if_pos hr]
        exact ih last value maxSeen (seenThis + 1)
      · rw [if_pos (by simp [hr]), if_neg hr]
        by_cases hp : seenThis > maxSeen
        · rw [if_pos hp, if_pos hp, if_pos hp]
          exact ih r (some last) seenThis 1
        · rw [if_neg hp, if_neg hp, if_neg hp]
          exact ih r value maxSeen 1

theorem sorted_head_le {a : ℚ} {t : List ℚ} (h : List.Sorted (· ≤ ·) (a :: t)) :
    ∀ x ∈ t, a ≤ x :=
  (List.sorted_cons.mp h).1

theorem sorted_tail {a : ℚ} {t : List ℚ} (h : List.Sorted (· ≤ ·) (a :: t)) :
    List.Sorted (· ≤ ·) t :=
  (List.sorted_cons.mp h).2

theorem sorted_head_tail {a b : ℚ} {u : List ℚ}
    (h : List.Sorted (· ≤ ·) (a :: b :: u)) : List.Sorted (· ≤ ·) (a :: u) := by
  rw [List.sorted_cons] at h ⊢
  exact ⟨fun x hx => h.1 x (by simp [hx]), sorted_tail h.2⟩

theorem count_eq_takeWhile_length :
    ∀ (t : List ℚ) (a : ℚ), List.Sorted (· ≤ ·) (a :: t) →
      t.count a = (t.takeWhile (fun w => w = a)).length := by
  intro t
  induction t with
  | nil => intro a _; rfl
  | cons b u ih =>
      intro a h
      by_cases hb : b = a
      · subst hb
        rw [List.count_cons_self, List.takeWhile_cons_of_pos (by simp),
          List.length_cons, ih b (sorted_head_tail h)]
      · have hab : a < b := lt_of_le_of_ne (sorted_head_le h b (by simp)) (Ne.symm hb)
        have hnotin : a ∉ u := by
          intro hmem
          have := sorted_head_le (sorted_tail h) a hmem
          exact absurd (lt_of_lt_of_le hab this) (lt_irrefl a)
        rw [List.count_cons_of_ne (Ne.symm hb), List.takeWhile_cons_of_neg (by simp [hb]),
          List.count_eq_zero.mpr hnotin]
        rfl

theorem not_mem_dropWhile_self :
    ∀ (t : List ℚ) (a : ℚ), List.Sorted (· ≤ ·) (a :: t) →
      a ∉ t.dropWhile (fun w => w = a) := by
  intro t
  induction t with
  | nil => intro a _; simp
  | cons b u ih =>
      intro a h
      by_cases hb : b = a
      · subst hb
        rw [List.dropWhile_cons_of_pos (by simp)]
        exact ih b (sorted_head_tail h)
      · have hab : a < b := lt_of_le_of_ne (sorted_head_le h b (by simp)) (Ne.symm hb)
        rw [List.dropWhile_cons_of_neg (by simp [hb])]
        intro hmem
        rcases List.mem_cons.mp hmem with h1 | h1
        · exact hb h1.symm
        · have := sorted_head_le (sorted_tail h) a h1
          exact absurd (lt_of_lt_of_le hab this) (lt_irrefl a)

theorem count_run_decomp :
    ∀ (t : List ℚ) (a w : ℚ), List.Sorted (· ≤ ·) (a :: t) →
      (a :: t).count w =
        if w = a then 1 + (t.takeWhile (fun x => x = a)).length
        else (t.dropWhile (fun x => x = a)).count w := by
  intro t a w h
  have hsplit : t.takeWhile (fun x => x = a) ++ t.dropWhile (fun x => x = a) = t :=
    List.takeWhile_append_dropWhile (p := fun x => decide (x = a)) (l := t)
  have htake : ∀ x ∈ t.takeWhile (fun x => x = a), x = a := by
    intro x hx
    have := List.mem_takeWhile_imp hx
    simpa using this
  have hc : ∀ u : ℚ, t.count u =
      (t.takeWhile (fun x => x = a)).count u + (t.dropWhile (fun x => x = a)).count u := by
    intro u
    conv_lhs => rw [← hsplit]
    rw [List.count_append]
  by_cases hw : w = a
  · subst hw
    rw [if_pos rfl, List.count_cons_self, hc w,
      List.count_eq_zero.mpr (not_mem_dropWhile_self t w h),
      List.count_eq_length.mpr (fun x hx => (htake x hx).symm)]
    omega
  · rw [if_neg hw, List.count_cons_of_ne hw, hc w,
      List.count_eq_zero.mpr (fun hmem => hw (htake w hmem))]
    omega

theorem leastMode_nil : leastMode [] = none := by
  rw [leastMode]

theorem leastMode_cons (a : ℚ) (t : List ℚ) :
    leastMode (a :: t) =
      match leastMode (t.dropWhile (fun w => w = a)) with
      | none => some a
      | some b =>
          if (t.dropWhile (fun w => w = a)).count b >
              1 + (t.takeWhile (fun w => w = a)).length then some b
          else some a := by
  rw [leastMode]

theorem leastMode_eq_none_iff (l : List ℚ) : leastMode l = none ↔ l = [] := by
  constructor
  · intro h
    cases l with
    | nil => rfl
    | cons a t =>
        rw [leastMode_cons] at h
        rcases hrest : leastMode (t.dropWhile (fun w => w = a)) with _ | b <;>
            rw [hrest] at h <;> dsimp only at h
        · cases h
        · split at h <;> cases h
  · rintro rfl
    exact leastMode_nil

theorem leastMode_mem :
    ∀ (n : ℕ) (l : List ℚ), l.length ≤ n → ∀ b, leastMode l = some b → b ∈ l := by
  intro n
  induction n with
  | zero =>
      intro l hl b h
      have hnil : l = [] := List.length_eq_zero.mp (by omega)
      subst hnil
      rw [leastMode_nil] at h
      cases h
  | succ n ih =>
      intro l hl b h
      cases l with
      | nil =>
          rw [leastMode_nil] at h
          cases h
      | cons a t =>
          rw [leastMode_cons] at h
          rcases hrest : leastMode (t.dropWhile (fun w => w = a)) with _ | c
          · rw [hrest] at h
            dsimp only at h
            cases h
            simp
          · rw [hrest] at h
            dsimp only at h
            have hlen : (t.dropWhile (fun w => w = a)).length ≤ n := by
              have hsub := (List.dropWhile_sublist
                (l := t) (fun w => decide (w = a))).length_le
              simp only [List.length_cons] at hl
              omega
            have hcmem : c ∈ t.dropWhile (fun w => w = a) := ih _ hlen c hrest
            have hct : c ∈ t := (List.dropWhile_sublist _).mem hcmem
            split at h
            · cases h
              simp [hct]
            · cases h
              simp

theorem gList_eq_runSel :
    ∀ (t : List ℚ) (last : ℚ) (value : Option ℚ) (maxSeen seenThis : ℕ),
      List.Sorted (· ≤ ·) (last :: t) → 1 ≤ seenThis →
      gList t last value maxSeen seenThis =
        runSel (t.dropWhile (fun w => w = last)) last value maxSeen
          (seenThis + (t.takeWhile (fun w => w = last)).length) := by
  intro t
  induction t with
  | nil =>
      intro last value maxSeen seenThis _ _
      simp [gList, runSel, leastMode]
  | cons r t ih =>
      intro last value maxSeen seenThis hsorted hseen
      by_cases hr : r = last
      · subst hr
        rw [gList, if_pos rfl, List.takeWhile_cons_of_pos (by simp),
          List.dropWhile_cons_of_pos (by simp), List.length_cons,
          ih r value maxSeen (seenThis + 1) (sorted_head_tail hsorted) (by omega)]
        congr 1
        omega
      · rw [gList, if_neg hr, List.takeWhile_cons_of_neg (by simp [hr]),
          List.dropWhile_cons_of_neg (by simp [hr]), List.length_nil, Nat.add_zero]
        have hsr : List.Sorted (· ≤ ·) (r :: t) := sorted_tail hsorted
        have hcr : (r :: t).count r = 1 + (t.takeWhile (fun w => w = r)).length := by
          rw [count_run_decomp t r r hsr, if_pos rfl]
        rcases hrest : leastMode (t.dropWhile (fun w => w = r)) with _ | b
        · have hlm : leastMode (r :: t) = some r := by
            rw [leastMode_cons, hrest]
          by_cases h3 : seenThis > maxSeen
          · rw [if_pos h3, ih r (some last) seenThis 1 hsr (by omega),
              runSel, runSel, hrest, hlm]
            dsimp only
            split_ifs <;> first | rfl | (exfalso; omega)
          · rw [if_neg h3, ih r value maxSeen 1 hsr (by omega),
              runSel, runSel, hrest, hlm]
            dsimp only
            split_ifs <;> first | rfl | (exfalso; omega)
        · have hbmem : b ∈ t.dropWhile (fun w => w = r) :=
            leastMode_mem _ _ (le_refl _) b hrest
          have hbner : b ≠ r := by
            intro heq
            exact not_mem_dropWhile_self t r hsr (heq ▸ hbmem)
          have hcb : (r :: t).count b = (t.dropWhile (fun w => w = r)).count b := by
            rw [count_run_decomp t r b hsr, if_neg hbner]
          by_cases hB : (t.dropWhile (fun w => w = r)).count b >
              1 + (t.takeWhile (fun w => w = r)).length
          · have hlm : leastMode (r :: t) = some b := by
              rw [leastMode_cons, hrest]
              dsimp only
              rw [if_pos hB]
            by_cases h3 : seenThis > maxSeen
            · rw [if_pos h3, ih r (some last) seenThis 1 hsr (by omega),
                runSel, runSel, hrest, hlm]
              dsimp only
              split_ifs <;> first | rfl | (exfalso; omega)
            · rw [if_neg h3, ih r value maxSeen 1 hsr (by omega),
                runSel, runSel, hrest, hlm]
              dsimp only
              split_ifs <;> first | rfl | (exfalso; omega)
          · have hlm : leastMode (r :: t) = some r := by
              rw [leastMode_cons, hrest]
              dsimp only
              rw [if_neg hB]
            by_cases h3 : seenThis > maxSeen
            · rw [if_pos h3, ih r (some last) seenThis 1 hsr (by omega),
                runSel, runSel, hrest, hlm]
              dsimp only
              split_ifs <;> first | rfl | (exfalso; omega)
            · rw [if_neg h3, ih r value maxSeen 1 hsr (by omega),
                runSel, runSel, hrest, hlm]
              dsimp only
              split_ifs <;> first | rfl | (exfalso; omega)

theorem leastMode_correct :
    ∀ (n : ℕ) (l : List ℚ), l.length ≤ n → List.Sorted (· ≤ ·) l →
      ∀ b, leastMode l = some b →
        b ∈ l ∧ (∀ w : ℚ, l.count w ≤ l.count b) ∧
        (∀ w ∈ l, l.count w = l.count b → b ≤ w) := by
  intro n
  induction n with
  | zero =>
      intro l hl _ b h
      have hnil : l = [] := List.length_eq_zero.mp (by omega)
      subst hnil
      rw [leastMode_nil] at h
      cases h
  | succ n ih =>
      intro l hl hsorted b h
      cases l with
      | nil =>
          rw [leastMode_nil] at h
          cases h
      | cons a t =>
          rw [leastMode_cons] at h
          have htake_all : ∀ x ∈ t.takeWhile (fun w => w = a), x = a := by
            intro x hx
            simpa using List.mem_takeWhile_imp hx
          have hca : (a :: t).count a = 1 + (t.takeWhile (fun w => w = a)).length := by
            rw [count_run_decomp t a a hsorted, if_pos rfl]
          have hna : a ∉ t.dropWhile (fun w => w = a) := not_mem_dropWhile_self t a hsorted
          have hcw : ∀ w : ℚ, w ≠ a →
              (a :: t).count w = (t.dropWhile (fun x => x = a)).count w := by
            intro w hw
            rw [count_run_decomp t a w hsorted, if_neg hw]
          have hsortedrest : List.Sorted (· ≤ ·) (t.dropWhile (fun w => w = a)) :=
            List.Pairwise.sublist (List.dropWhile_sublist _) (sorted_tail hsorted)
          have hlenrest : (t.dropWhile (fun w => w = a)).length ≤ n := by
            have := (List.dropWhile_sublist (l := t) (fun w => decide (w = a))).length_le
            simp only [List.length_cons] at hl
            omega
          rcases hrest : leastMode (t.dropWhile (fun w => w = a)) with _ | c
          · rw [hrest] at h
            dsimp only at h
            have hba : b = a := by
              injection h with h'
              exact h'.symm
            rw [hba]
            have hrestnil := (leastMode_eq_none_iff _).mp hrest
            refine ⟨by simp, ?_, ?_⟩
            · intro w
              by_cases hw : w = a
              · subst hw
                exact le_refl _
              · rw [hcw w hw, hrestnil, hca]
                simp
            · intro w hwmem _
              rcases List.mem_cons.mp hwmem with h1 | h1
              · exact le_of_eq h1.symm
              · exact sorted_head_le hsorted w h1
          · rw [hrest] at h
            dsimp only at h
            obtain ⟨hcmem, hcmax, hcleast⟩ := ih _ hlenrest hsortedrest c hrest
            have hcnea : c ≠ a := fun heq => hna (heq ▸ hcmem)
            have hcc : (a :: t).count c = (t.dropWhile (fun x => x = a)).count c :=
              hcw c hcnea
            by_cases hgt : (t.dropWhile (fun w => w = a)).count c >
                1 + (t.takeWhile (fun w => w = a)).length
            · rw [if_pos hgt] at h
              cases h
              refine ⟨List.mem_cons_of_mem a ((List.dropWhile_sublist _).mem hcmem),
                ?_, ?_⟩
              · intro w
                by_cases hw : w = a
                · subst hw
                  rw [hca, hcc]
                  omega
                · rw [hcw w hw, hcc]
                  exact hcmax w
              · intro w hwmem hcount
                by_cases hw : w = a
                · exfalso
                  subst hw
                  rw [hca, hcc] at hcount
                  omega
                · rcases List.mem_cons.mp hwmem with h1 | h1
                  · exact absurd h1 hw
                  · have hwrest : w ∈ t.dropWhile (fun x => x = a) := by
                      have hsplit := List.takeWhile_append_dropWhile
                        (p := fun x => decide (x = a)) (l := t)
                      rw [← hsplit] at h1
                      rcases List.mem_append.mp h1 with h2 | h2
                      · exact absurd (htake_all w h2) hw
                      · exact h2
                    refine hcleast w hwrest ?_
                    rw [hcw w hw, hcc] at hcount
                    exact hcount
            · rw [if_neg hgt] at h
              have hba : b = a := by
                injection h with h'
                exact h'.symm
              rw [hba]
              refine ⟨by simp, ?_, ?_⟩
              · intro w
                by_cases hw : w = a
                · subst hw
                  exact le_refl _
                · rw [hcw w hw, hca]
                  have := hcmax w
                  omega
              · intro w hwmem _
                rcases List.mem_cons.mp hwmem with h1 | h1
                · exact le_of_eq h1.symm
                · exact sorted_head_le hsorted w h1

theorem modeSorted_eq_leastMode (s : List ℚ) (hne : s ≠ [])
    (hsorted : List.Sorted (· ≤ ·) s) :
    ∃ v, leastMode s = some v ∧ modeSorted s = .ok (.num v) := by
  cases s with
  | nil => cases hne rfl
  | cons a t =>
      cases t with
      | nil =>
          refine ⟨a, ?_, rfl⟩
          rw [leastMode_cons]
          rw [show List.dropWhile (fun w => decide (w = a)) [] = ([] : List ℚ) from rfl,
            leastMode_nil]
      | cons b u =>
          have hmain := gList_eq_runSel (b :: u) a none 0 1 hsorted (le_refl 1)
          have hscan : modeSorted (a :: b :: u) =
              match gList (b :: u) a none 0 1 with
              | some v => .ok (.num v)
              | none => .ok .nan := by
            rw [modeSorted, if_neg (by simp), if_neg (by simp),
              show (a :: b :: u).drop 1 = b :: u from rfl,
              show (a :: b :: u).get? 0 = some a from rfl,
              modeScan_eq_gList]
          rw [hmain] at hscan
          rcases hrest : leastMode ((b :: u).dropWhile (fun w => w = a)) with _ | c
          · refine ⟨a, ?_, ?_⟩
            · rw [leastMode_cons, hrest]
            · rw [hscan, runSel, hrest]
              dsimp only
              rw [if_pos (by omega)]
          · have hcpos : 0 < ((b :: u).dropWhile (fun w => w = a)).count c := by
              refine List.count_pos_iff_mem.mpr ?_
              exact leastMode_mem _ _ (le_refl _) c hrest
            by_cases hgt : ((b :: u).dropWhile (fun w => w = a)).count c >
                1 + ((b :: u).takeWhile (fun w => w = a)).length
            · refine ⟨c, ?_, ?_⟩
              · rw [leastMode_cons, hrest]
                dsimp only
                rw [if_pos hgt]
              · rw [hscan, runSel, hrest]
                dsimp only
                rw [if_pos ⟨hgt, by omega⟩]
            · refine ⟨a, ?_, ?_⟩
              · rw [leastMode_cons, hrest]
                dsimp only
                rw [if_neg hgt]
              · rw [hscan, runSel, hrest]
                dsimp only
                rw [if_neg (by omega), if_pos (by omega)]

/-- C4 counterexample: in the sample `[1, 2, 1, 2]` the values 1 and 2
are tied with two occurrences each; the most-recently-seen value in
sorted order (the largest tied value) is 2, but `mode` returns 1. -/
theorem claim_C4_counterexample :
    mode [1, 2, 1, 2] = .ok (.num 1) ∧
    ([1, 2, 1, 2] : List ℚ).count 1 = ([1, 2, 1, 2] : List ℚ).count 2 ∧
    (1 : ℚ) < 2 := by
  refine ⟨by with_unfolding_all decide, by with_unfolding_all decide, by norm_num⟩

/-- C4 (amended): for every non-empty sample, `mode` returns a value
with the maximum number of occurrences, and when several distinct values
are tied for the maximum count, the FIRST-seen value in sorted order
(i.e. the smallest tied value) wins. -/
theorem claim_C4 :
    ∀ x : List ℚ, x ≠ [] → ∃ v, mode x = .ok (.num v) ∧ v ∈ x ∧
      (∀ w : ℚ, x.count w ≤ x.count v) ∧
      (∀ w ∈ x, x.count w = x.count v → v ≤ w) := by
  intro x hx
  have hperm : List.Perm (numericSort x) x := by
    rw [numericSort]
    exact List.perm_insertionSort _ x
  have hsorted : List.Sorted (· ≤ ·) (numericSort x) := by
    rw [numericSort]
    exact List.sorted_insertionSort _ x
  have hsne : numericSort x ≠ [] := by
    intro h
    apply hx
    have hp : List.Perm x ([] : List ℚ) := by
      rw [← h]
      exact hperm.symm
    exact List.Perm.eq_nil hp
  obtain ⟨v, hlm, hms⟩ := modeSorted_eq_leastMode (numericSort x) hsne hsorted
  obtain ⟨hmem, hmax, hleast⟩ := leastMode_correct (numericSort x).length
    (numericSort x) (le_refl _) hsorted v hlm
  refine ⟨v, by rw [mode]; exact hms, hperm.mem_iff.mp hmem, ?_, ?_⟩
  · intro w
    have h := hmax w
    rwa [hperm.count_eq, hperm.count_eq] at h
  · intro w hw hcnt
    refine hleast w (hperm.mem_iff.mpr hw) ?_
    rw [hperm.count_eq, hperm.count_eq]
    exact hcnt

/-- Witness for C4 at `[2, 1, 1]`: the mode exists with maximal count and
is least among ties. -/
theorem claim_C4_witness :
    ∃ v, mode [2, 1, 1] = .ok (.num v) ∧ v ∈ ([2, 1, 1] : List ℚ) ∧
      (∀ w : ℚ, ([2, 1, 1] : List ℚ).count w ≤ ([2, 1, 1] : List ℚ).count v) ∧
      (∀ w ∈ ([2, 1, 1] : List ℚ),
        ([2, 1, 1] : List ℚ).count w = ([2, 1, 1] : List ℚ).count v → v ≤ w) :=
  claim_C4 [2, 1, 1] (by decide)

end SS
